import Mathlib

/-!
Verification of `numpy/core/_type_aliases.py`.

The module builds three name tables over an externally provided type
registry (`numpy.core.multiarray.typeinfo`) and abstract scalar base
classes (attributes of `numpy.core.multiarray`):

* `sctypeDict` — broad name-to-type mapping,
* `allTypes`   — narrow name-to-type mapping,
* `c_names_dict` — raw numeric-kind side table for `NPY_`-prefixed names,
* `sctypes`    — five group lists of concrete types sorted by item size.

The registry and the abstract class module live outside the translated
file, so the development is parametrized by an environment carrying the
registry entries, the attribute lookup, the subclass test and the item
size query.  Python dictionaries are modelled as association lists where
insertion prepends and lookup takes the first match, so a later insertion
shadows (overwrites) an earlier one, exactly as `d[k] = v` does.
-/

namespace TypeAliases

/-- A Python dict with string keys, as an association list.  The head of
the list is the most recent write. -/
abbrev Dict (T : Type) := List (String × T)

/-- `d[k] = v` : a later write shadows earlier ones. -/
def dset {T : Type} (d : Dict T) (k : String) (v : T) : Dict T :=
  (k, v) :: d

/-- `d.get(k)` : first (that is, most recent) binding of `k`. -/
def dget {T : Type} (d : Dict T) (k : String) : Option T :=
  (d.find? (fun p => p.1 == k)).map (fun p => p.2)

/-- `k in d` : key membership. -/
def dmem {T : Type} (d : Dict T) (k : String) : Bool :=
  d.any (fun p => p.1 == k)

/-- Python's `str.startswith`: the pattern's characters are a prefix of
the subject's characters. -/
def py_startswith (s pat : String) : Bool :=
  pat.data.isPrefixOf s.data

/-- One entry of the external registry `typeinfo`: the construction uses
only the kind code (`v.kind`) and the concrete type handle (`v.type`). -/
structure TypeInfoEntry (T : Type) where
  kind : Char
  type : T
deriving DecidableEq, Repr

/-- The external collaborators of the module: the registry `typeinfo`
(an insertion-ordered dict, given as its item list), attribute lookup on
`numpy.core.multiarray` (`getattr(ma, name)` and the direct accesses
`ma.signedinteger`, ...), the `issubclass` test, and the byte width query
`dtype(t).itemsize`. -/
structure NumpyEnv (T : Type) where
  typeinfo : List (String × TypeInfoEntry T)
  attr : String → T
  issubclass : T → T → Bool
  itemsize : T → Nat

/-- The three dictionaries built by the first part of the module. -/
structure Tables (T : Type) where
  sctypeDict : Dict T
  allTypes : Dict T
  c_names_dict : Dict (TypeInfoEntry T)
deriving DecidableEq, Repr

/-- `_abstract_type_names` (a set literal in the source; iteration order
of the set is immaterial because the ten names are pairwise distinct). -/
def _abstract_type_names : List String :=
  ["generic", "integer", "inexact", "floating", "number",
   "flexible", "character", "complexfloating", "unsignedinteger",
   "signedinteger"]

/-- Python's `v in c_names_dict` membership test from the registry loop:
it asks whether the typeinfo record `v` equals one of the dict's KEYS.
The keys are strings and `v` is a typeinfo record, so the test never
succeeds (cross-type `==` in Python is `False`); it is retained here to
keep the translated condition shaped like the source. -/
def py_in_keys {T : Type} (_v : TypeInfoEntry T) (_d : Dict (TypeInfoEntry T)) : Bool :=
  false

/-- Phase 1: seed `allTypes` with the abstract category classes
(`allTypes[name] = getattr(ma, name)`); `sctypeDict` and `c_names_dict`
start empty. -/
def abstractPhase {T : Type} (env : NumpyEnv T) : Tables T :=
  { sctypeDict := []
    allTypes := _abstract_type_names.foldl (fun d n => dset d n (env.attr n)) []
    c_names_dict := [] }

/-- One step of the registry loop:
`if k.startswith("NPY_") and v not in c_names_dict: c_names_dict[k[4:]] = v`
`else: allTypes[k] = v.type; sctypeDict[k] = v.type`. -/
def regStep {T : Type} (st : Tables T) (kv : String × TypeInfoEntry T) : Tables T :=
  if py_startswith kv.1 "NPY_" && !(py_in_keys kv.2 st.c_names_dict) then
    { st with c_names_dict := dset st.c_names_dict (kv.1.drop 4) kv.2 }
  else
    { st with allTypes := dset st.allTypes kv.1 kv.2.type,
              sctypeDict := dset st.sctypeDict kv.1 kv.2.type }

/-- Phase 2: `for k, v in typeinfo.items(): ...`. -/
def registryPhase {T : Type} (env : NumpyEnv T) (st : Tables T) : Tables T :=
  env.typeinfo.foldl regStep st

/-- `_aliases` (insertion order of the dict literal). -/
def _aliases : List (String × String) :=
  [("double", "float64"), ("cdouble", "complex128"), ("single", "float32"),
   ("csingle", "complex64"), ("half", "float16")]

/-- One step of the `_aliases` loop:
`sctypeDict[k] = allTypes[v]; allTypes[k] = allTypes[v]`.
The `allTypes[v]` subscript raises `KeyError` when `v` is absent, which
the embedding renders as `none`. -/
def aliasStep {T : Type} (st : Tables T) (kv : String × String) : Option (Tables T) :=
  (dget st.allTypes kv.2).map (fun t =>
    { st with sctypeDict := dset st.sctypeDict kv.1 t,
              allTypes := dset st.allTypes kv.1 t })

/-- Phase 3: the `_aliases` loop. -/
def aliasPhase {T : Type} (st : Tables T) : Option (Tables T) :=
  _aliases.foldlM aliasStep st

/-- `_extra_aliases` (insertion order of the dict literal). -/
def _extra_aliases : List (String × String) :=
  [("bool", "bool_"), ("float", "float64"), ("complex", "complex128"),
   ("object", "object_"), ("bytes", "bytes_"), ("a", "bytes_"),
   ("int", "int_"), ("long", "int_"), ("ulong", "uint"),
   ("str", "str_"), ("unicode", "str_")]

/-- One step of the `_extra_aliases` loop: `sctypeDict[k] = allTypes[v]`
only — `allTypes` is not touched. -/
def extraAliasStep {T : Type} (st : Tables T) (kv : String × String) : Option (Tables T) :=
  (dget st.allTypes kv.2).map (fun t =>
    { st with sctypeDict := dset st.sctypeDict kv.1 t })

/-- Phase 4: the `_extra_aliases` loop. -/
def extraAliasPhase {T : Type} (st : Tables T) : Option (Tables T) :=
  _extra_aliases.foldlM extraAliasStep st

/-- `extended_prec_name = f"{base_name}{bits}"` with
`base_name = "complex" if is_complex else "float"`; `f"{bits}"` is the
decimal rendering `Nat.repr bits`. -/
def extended_prec_name (is_complex : Bool) (bits : Nat) : String :=
  (if is_complex then "complex" else "float") ++ Nat.repr bits

/-- One step of the extended-precision loop: look up
`allTypes[full_name]`, compute `bits = dtype(t).itemsize * 8`, and add
`f"{base_name}{bits}"` to both mappings only when it is not already a key
of `allTypes`. -/
def extendedStep {T : Type} (env : NumpyEnv T) (st : Tables T) (p : Bool × String) :
    Option (Tables T) :=
  (dget st.allTypes p.2).map (fun longdouble_type =>
    let bits : Nat := env.itemsize longdouble_type * 8
    let name : String := extended_prec_name p.1 bits
    if dmem st.allTypes name then st
    else
      { st with sctypeDict := dset st.sctypeDict name longdouble_type,
                allTypes := dset st.allTypes name longdouble_type })

/-- Phase 5:
`for is_complex, full_name in [(False, "longdouble"), (True, "clongdouble")]`. -/
def extendedPhase {T : Type} (env : NumpyEnv T) (st : Tables T) : Option (Tables T) :=
  [(false, "longdouble"), (true, "clongdouble")].foldlM (extendedStep env) st

/-- The whole dictionary-building part of the module, phases in source
order: abstract categories, registry entries, `_aliases`,
`_extra_aliases`, extended-precision names. -/
def buildTables {T : Type} (env : NumpyEnv T) : Option (Tables T) :=
  (aliasPhase (registryPhase env (abstractPhase env))).bind (fun st2 =>
    (extraAliasPhase st2).bind (fun st3 => extendedPhase env st3))

/-- The five group lists of `sctypes`. -/
structure SctypesLists (T : Type) where
  int : List T
  uint : List T
  float : List T
  complex : List T
  others : List T
deriving DecidableEq, Repr

/-- The inner classification loop: the ordered `(group, abstract class)`
pairs tried by `issubclass`, with `break` on the first success.  The
result is the group name of the first matching pair, if any. -/
def classify {T : Type} (env : NumpyEnv T) (t : T) : Option String :=
  (([("int", "signedinteger"), ("uint", "unsignedinteger"),
     ("float", "floating"), ("complex", "complexfloating"),
     ("others", "generic")] : List (String × String)).find?
    (fun p => env.issubclass t (env.attr p.2))).map (fun p => p.1)

/-- `sctypes[type_group].append(concrete_type)`. -/
def addToGroup {T : Type} (st : SctypesLists T) (g : String) (t : T) : SctypesLists T :=
  if g = "int" then { st with int := st.int ++ [t] }
  else if g = "uint" then { st with uint := st.uint ++ [t] }
  else if g = "float" then { st with float := st.float ++ [t] }
  else if g = "complex" then { st with complex := st.complex ++ [t] }
  else if g = "others" then { st with others := st.others ++ [t] }
  else st

/-- One step of the outer `sctypes` loop: skip datetime/timedelta kinds,
otherwise append the concrete type to the first matching group. -/
def sctypesStep {T : Type} (env : NumpyEnv T) (st : SctypesLists T)
    (e : TypeInfoEntry T) : SctypesLists T :=
  if e.kind == 'M' || e.kind == 'm' then st
  else
    match classify env e.type with
    | some g => addToGroup st g e.type
    | none => st

/-- The classification pass over `set(typeinfo.values())`.  A Python set
iterates in an unspecified order; the embedding fixes one deduplicated
enumeration of the registry's entry values (every claim proved below is
independent of that order). -/
def classifiedSctypes {T : Type} [DecidableEq T] (env : NumpyEnv T) : SctypesLists T :=
  ((env.typeinfo.map (fun kv => kv.2)).dedup).foldl (sctypesStep env)
    { int := [], uint := [], float := [], complex := [], others := [] }

/-- The comparison used by `sctype_list.sort(key=lambda x: dtype(x).itemsize)`. -/
def itemsizeLE {T : Type} (env : NumpyEnv T) (a b : T) : Bool :=
  decide (env.itemsize a ≤ env.itemsize b)

/-- The final `sctypes` value: each group list sorted stably by byte
width (Python's `list.sort` is stable, as is `List.mergeSort`). -/
def sctypes {T : Type} [DecidableEq T] (env : NumpyEnv T) : SctypesLists T :=
  let st := classifiedSctypes env
  { int := st.int.mergeSort (itemsizeLE env)
    uint := st.uint.mergeSort (itemsizeLE env)
    float := st.float.mergeSort (itemsizeLE env)
    complex := st.complex.mergeSort (itemsizeLE env)
    others := st.others.mergeSort (itemsizeLE env) }

/-!
### A small concrete environment

A registry with the concrete scalar kinds the alias tables require, over
`T := Nat` (type handles are opaque tokens; only equality, the subclass
table and the item sizes matter).  Abstract classes are `100`–`109`,
concrete types `10`–`24`.
-/

/-- Attribute lookup of the concrete environment. -/
def envWattr (n : String) : Nat :=
  if n = "generic" then 100
  else if n = "integer" then 101
  else if n = "inexact" then 102
  else if n = "floating" then 103
  else if n = "number" then 104
  else if n = "flexible" then 105
  else if n = "character" then 106
  else if n = "complexfloating" then 107
  else if n = "unsignedinteger" then 108
  else if n = "signedinteger" then 109
  else 0

/-- Subclass table of the concrete environment. -/
def envWsub (t u : Nat) : Bool :=
  if u = 109 then t = 14 || t = 24
  else if u = 108 then t = 15
  else if u = 103 then t = 16 || t = 17 || t = 18 || t = 21
  else if u = 107 then t = 19 || t = 20 || t = 22
  else if u = 100 then 10 ≤ t && t ≤ 24
  else false

/-- Item sizes of the concrete environment. -/
def envWsize (t : Nat) : Nat :=
  if t = 10 then 1 else if t = 11 then 8 else if t = 12 then 0
  else if t = 13 then 0 else if t = 14 then 8 else if t = 15 then 8
  else if t = 16 then 2 else if t = 17 then 4 else if t = 18 then 8
  else if t = 19 then 8 else if t = 20 then 16 else if t = 21 then 16
  else if t = 22 then 32 else if t = 23 then 8 else if t = 24 then 1
  else 0

/-- The concrete environment. -/
def envW : NumpyEnv Nat :=
  { typeinfo :=
      [("bool_", ⟨'b', 10⟩), ("object_", ⟨'O', 11⟩), ("bytes_", ⟨'S', 12⟩),
       ("str_", ⟨'U', 13⟩), ("int_", ⟨'l', 14⟩), ("uint", ⟨'L', 15⟩),
       ("float16", ⟨'e', 16⟩), ("float32", ⟨'f', 17⟩), ("float64", ⟨'d', 18⟩),
       ("complex64", ⟨'F', 19⟩), ("complex128", ⟨'D', 20⟩),
       ("longdouble", ⟨'g', 21⟩), ("clongdouble", ⟨'G', 22⟩),
       ("datetime64", ⟨'M', 23⟩), ("NPY_BYTE", ⟨'i', 24⟩)]
    attr := envWattr
    issubclass := envWsub
    itemsize := envWsize }

/-- The tables the construction produces on `envW`. -/
def tblW : Tables Nat :=
  (buildTables envW).getD { sctypeDict := [], allTypes := [], c_names_dict := [] }


/-!
### Derived state predicates and further concrete fixtures
-/

/-- Pointwise invariant holding up to the `_aliases` phase: a key of
`sctypeDict` has the same binding in `allTypes`. -/
def SameKeyInv {T : Type} (s : Tables T) : Prop :=
  ∀ k v, dget s.sctypeDict k = some v → dget s.allTypes k = some v

/-- Weaker invariant holding to the end: every `sctypeDict` value is an
`allTypes` value (under some key). -/
def ValueInv {T : Type} (s : Tables T) : Prop :=
  ∀ k v, dget s.sctypeDict k = some v → ∃ k2, dget s.allTypes k2 = some v

/-- Membership in any of the five group lists. -/
def allMem {T : Type} (st : SctypesLists T) (x : T) : Prop :=
  x ∈ st.int ∨ x ∈ st.uint ∨ x ∈ st.float ∨ x ∈ st.complex ∨ x ∈ st.others

/-- Total number of occurrences of `x` across the five group lists. -/
def groupCount {T : Type} [DecidableEq T] (st : SctypesLists T) (x : T) : Nat :=
  (st.int ++ st.uint ++ st.float ++ st.complex ++ st.others).count x

/-- `post` is `pre` sorted by byte width: widths are non-decreasing along
`post`, and for every width the members of that width appear in `post` in
exactly the order they had in `pre` (stability). -/
def SortedStable {T : Type} (env : NumpyEnv T) (pre post : List T) : Prop :=
  List.Pairwise (fun a b => env.itemsize a ≤ env.itemsize b) post ∧
  ∀ w, post.filter (fun x => env.itemsize x == w)
    = pre.filter (fun x => env.itemsize x == w)

/-- A mid-pipeline state with the extended-precision inputs present:
`"float128"`/`"complex256"` are not yet keys, so the phase adds both. -/
def stW5 : Tables Nat :=
  { sctypeDict := [("longdouble", 21), ("clongdouble", 22)]
    allTypes := [("longdouble", 21), ("clongdouble", 22), ("float64", 18)]
    c_names_dict := [] }

/-- The tables after running the extended-precision phase on `stW5`. -/
def tblW5 : Tables Nat :=
  (extendedPhase envW stW5).getD { sctypeDict := [], allTypes := [], c_names_dict := [] }

/-- An environment whose registry already contains a `"float128"` entry
(handle `30`) while `longdouble` (handle `21`) is 16 bytes wide, so the
extended-precision phase computes the colliding name `"float128"`. -/
def envC3 : NumpyEnv Nat :=
  { typeinfo := envW.typeinfo ++ [("float128", ⟨'f', 30⟩)]
    attr := envWattr
    issubclass := fun t u => envWsub t u || (t == 30 && (u == 103 || u == 100))
    itemsize := fun t => if t = 30 then 16 else envWsize t }

/-- The tables built on `envC3`. -/
def tblC3 : Tables Nat :=
  (buildTables envC3).getD { sctypeDict := [], allTypes := [], c_names_dict := [] }

/-- The state after the single `longdouble` extended-precision step on
`stW5`. -/
def s1W : Tables Nat :=
  (extendedStep envW stW5 (false, "longdouble")).getD
    { sctypeDict := [], allTypes := [], c_names_dict := [] }

/-! ### Dictionary semantics -/

theorem dget_dset_self {T : Type} (d : Dict T) (k : String) (v : T) :
    dget (dset d k v) k = some v := by
  simp [dget, dset, List.find?]

theorem dget_dset_ne {T : Type} (d : Dict T) {k k' : String} (v : T) (h : k' ≠ k) :
    dget (dset d k v) k' = dget d k' := by
  have hb : (k == k') = false := by
    simp [Ne.symm h]
  simp [dget, dset, List.find?, hb]

theorem dmem_dset {T : Type} (d : Dict T) (k k' : String) (v : T) :
    dmem (dset d k v) k' = ((k == k') || dmem d k') := by
  simp [dmem, dset]

theorem dmem_eq_isSome_dget {T : Type} (d : Dict T) (k : String) :
    dmem d k = (dget d k).isSome := by
  induction d with
  | nil => rfl
  | cons p d ih =>
    by_cases h : (p.1 == k) = true
    · simp [dmem, dget, List.find?, h]
    · have h' : (p.1 == k) = false := by
        simpa using h
      simpa [dmem, dget, List.find?, h'] using ih

theorem dmem_of_dget_some {T : Type} {d : Dict T} {k : String} {v : T}
    (h : dget d k = some v) : dmem d k = true := by
  rw [dmem_eq_isSome_dget, h]
  rfl

theorem dget_none_of_dmem_false {T : Type} {d : Dict T} {k : String}
    (h : dmem d k = false) : dget d k = none := by
  rw [dmem_eq_isSome_dget] at h
  exact Option.not_isSome_iff_eq_none.mp (by simp [h])

/-! ### Generic fold invariants -/

theorem foldl_invariant {σ α : Type _} (f : σ → α → σ) (P : σ → Prop) :
    ∀ (l : List α) (s : σ), P s → (∀ t a, a ∈ l → P t → P (f t a)) →
      P (l.foldl f s)
  | [], s, hs, _ => hs
  | a :: l, s, hs, hstep =>
    foldl_invariant f P l (f s a) (hstep s a (List.mem_cons_self a l) hs)
      (fun t b hb => hstep t b (List.mem_cons_of_mem a hb))

theorem foldlM_invariant {σ α : Type _} (f : σ → α → Option σ) (P : σ → Prop) :
    ∀ (l : List α) (s s' : σ), l.foldlM f s = some s' → P s →
      (∀ t a t', a ∈ l → P t → f t a = some t' → P t') → P s' := by
  intro l
  induction l with
  | nil =>
    intro s s' h hs _
    simp [List.foldlM] at h
    exact h ▸ hs
  | cons a l ih =>
    intro s s' h hs hstep
    rw [List.foldlM_cons] at h
    cases hfa : f s a with
    | none => rw [hfa] at h; simp at h
    | some s1 =>
      rw [hfa] at h
      simp only [Option.bind_eq_bind, Option.some_bind] at h
      exact ih s1 s' h (hstep s a s1 (List.mem_cons_self a l) hs hfa)
        (fun t b t' hb => hstep t b t' (List.mem_cons_of_mem a hb))

theorem foldlM_isSome_tail {σ α : Type _} {f : σ → α → Option σ} {a : α}
    {l : List α} {s s' : σ} (h : (a :: l).foldlM f s = some s') :
    ∃ s1, f s a = some s1 ∧ l.foldlM f s1 = some s' := by
  rw [List.foldlM_cons] at h
  cases hfa : f s a with
  | none => rw [hfa] at h; simp at h
  | some s1 =>
    rw [hfa] at h
    simp only [Option.bind_eq_bind, Option.some_bind] at h
    exact ⟨s1, rfl, h⟩

/-! ### Decimal renderings and name disjointness -/

theorem digitChar_isDigit {m : Nat} (h : m < 10) : (Nat.digitChar m).isDigit = true := by
  interval_cases m <;> decide

theorem toDigitsCore_digits :
    ∀ (f n : Nat) (acc : List Char), (∀ c ∈ acc, c.isDigit = true) →
      ∀ c ∈ Nat.toDigitsCore 10 f n acc, c.isDigit = true := by
  intro f
  induction f with
  | zero =>
    intro n acc hacc c hc
    exact hacc c hc
  | succ f ih =>
    intro n acc hacc c hc
    have hd : (Nat.digitChar (n % 10)).isDigit = true :=
      digitChar_isDigit (Nat.mod_lt _ (by decide))
    have hacc' : ∀ c ∈ Nat.digitChar (n % 10) :: acc, c.isDigit = true := by
      intro c hc
      rcases List.mem_cons.mp hc with h | h
      · exact h ▸ hd
      · exact hacc c h
    rw [Nat.toDigitsCore] at hc
    by_cases hz : n / 10 = 0
    · rw [if_pos hz] at hc
      exact hacc' c hc
    · rw [if_neg hz] at hc
      exact ih (n / 10) _ hacc' c hc

theorem toDigitsCore_length_le :
    ∀ (f n : Nat) (acc : List Char),
      acc.length ≤ (Nat.toDigitsCore 10 f n acc).length := by
  intro f
  induction f with
  | zero => intro n acc; rw [Nat.toDigitsCore]
  | succ f ih =>
    intro n acc
    rw [Nat.toDigitsCore]
    by_cases hz : n / 10 = 0
    · rw [if_pos hz]
      simp
    · rw [if_neg hz]
      calc acc.length ≤ (Nat.digitChar (n % 10) :: acc).length := by simp
        _ ≤ _ := ih (n / 10) _

theorem repr_data_digits (n : Nat) : ∀ c ∈ (Nat.repr n).data, c.isDigit = true := by
  intro c hc
  have : (Nat.repr n).data = Nat.toDigitsCore 10 (n + 1) n [] := rfl
  rw [this] at hc
  exact toDigitsCore_digits (n + 1) n [] (by intro c hc; cases hc) c hc

theorem repr_data_ne_nil (n : Nat) : (Nat.repr n).data ≠ [] := by
  have : (Nat.repr n).data = Nat.toDigitsCore 10 (n + 1) n [] := rfl
  rw [this, Nat.toDigitsCore]
  by_cases hz : n / 10 = 0
  · rw [if_pos hz]
    simp
  · rw [if_neg hz]
    intro h
    have := toDigitsCore_length_le n (n / 10) [Nat.digitChar (n % 10)]
    rw [h] at this
    simp at this

theorem extName_data (b : Bool) (n : Nat) :
    (extended_prec_name b n).data
      = (if b then ['c', 'o', 'm', 'p', 'l', 'e', 'x']
         else ['f', 'l', 'o', 'a', 't']) ++ (Nat.repr n).data := by
  cases b <;> simp only [extended_prec_name, if_true, if_false, Bool.false_eq_true,
    String.data_append] <;> rfl

theorem extName_eq_imp {b : Bool} {n : Nat} {s : String}
    (h : extended_prec_name b n = s) :
    (if b then ['c', 'o', 'm', 'p', 'l', 'e', 'x']
     else ['f', 'l', 'o', 'a', 't']) ++ (Nat.repr n).data = s.data := by
  rw [← extName_data]
  exact congrArg String.data h

theorem extName_not_abstract (b : Bool) (n : Nat) :
    extended_prec_name b n ∉ _abstract_type_names := by
  intro h
  simp only [_abstract_type_names, List.mem_cons, List.not_mem_nil, or_false] at h
  rcases h with h | h | h | h | h | h | h | h | h | h <;>
    (have hd := extName_eq_imp h; cases b <;> simp at hd) <;>
    first
      | (have hdig := repr_data_digits n; rw [hd] at hdig; simpa using hdig 'i' (by simp))
      | (have hdig := repr_data_digits n; rw [hd] at hdig; simpa using hdig 'f' (by simp))

theorem extName_not_alias_key (b : Bool) (n : Nat) :
    extended_prec_name b n ∉ _aliases.map (fun p => p.1) := by
  intro h
  simp only [_aliases, List.map_cons, List.map_nil, List.mem_cons,
    List.not_mem_nil, or_false] at h
  rcases h with h | h | h | h | h <;>
    (have hd := extName_eq_imp h; cases b <;> simp at hd)

theorem extName_not_extra_key (b : Bool) (n : Nat) :
    extended_prec_name b n ∉ _extra_aliases.map (fun p => p.1) := by
  intro h
  simp only [_extra_aliases, List.map_cons, List.map_nil, List.mem_cons,
    List.not_mem_nil, or_false] at h
  rcases h with h | h | h | h | h | h | h | h | h | h | h <;>
    (have hd := extName_eq_imp h; cases b <;> simp at hd) <;>
    exact repr_data_ne_nil n hd

theorem extName_ne_longdouble (b : Bool) (n : Nat) :
    extended_prec_name b n ≠ "longdouble" ∧ extended_prec_name b n ≠ "clongdouble" := by
  constructor <;> intro h <;> (have hd := extName_eq_imp h; cases b <;> simp at hd)

theorem extName_not_npy (b : Bool) (n : Nat) :
    py_startswith (extended_prec_name b n) "NPY_" = false := by
  rw [py_startswith, extName_data]
  cases b <;> simp [List.isPrefixOf] <;> decide

theorem extName_float_ne_complex (n m : Nat) :
    extended_prec_name false n ≠ extended_prec_name true m := by
  intro h
  have hd := extName_eq_imp h
  rw [extName_data] at hd
  simp at hd

/-! ### The `NPY_` prefix and stripped names -/

theorem py_startswith_eq_prefix {s pat : String} :
    py_startswith s pat = true ↔ pat.data <+: s.data := by
  simp [py_startswith]

theorem npy_drop_inj {k1 k2 : String} (h1 : py_startswith k1 "NPY_" = true)
    (h2 : py_startswith k2 "NPY_" = true) (h : k1.drop 4 = k2.drop 4) : k1 = k2 := by
  obtain ⟨t1, ht1⟩ := py_startswith_eq_prefix.mp h1
  obtain ⟨t2, ht2⟩ := py_startswith_eq_prefix.mp h2
  have hL : ("NPY_".data).length = 4 := rfl
  have e1 : (k1.drop 4).data = t1 := by
    rw [String.data_drop, ← ht1, List.drop_left' hL]
  have e2 : (k2.drop 4).data = t2 := by
    rw [String.data_drop, ← ht2, List.drop_left' hL]
  apply String.ext
  rw [← ht1, ← ht2, ← e1, ← e2, h]

/-! ### The registry phase -/

theorem regStep_npy {T : Type} {st : Tables T} {kv : String × TypeInfoEntry T}
    (h : py_startswith kv.1 "NPY_" = true) :
    regStep st kv
      = { st with c_names_dict := dset st.c_names_dict (kv.1.drop 4) kv.2 } := by
  simp [regStep, h, py_in_keys]

theorem regStep_concrete {T : Type} {st : Tables T} {kv : String × TypeInfoEntry T}
    (h : py_startswith kv.1 "NPY_" = false) :
    regStep st kv
      = { st with allTypes := dset st.allTypes kv.1 kv.2.type,
                  sctypeDict := dset st.sctypeDict kv.1 kv.2.type } := by
  simp [regStep, h]

theorem regFold_frame {T : Type} (l : List (String × TypeInfoEntry T))
    (st : Tables T) (k : String) (hk : ∀ kv ∈ l, kv.1 ≠ k) :
    dget (l.foldl regStep st).sctypeDict k = dget st.sctypeDict k ∧
    dget (l.foldl regStep st).allTypes k = dget st.allTypes k := by
  refine foldl_invariant regStep
    (fun s => dget s.sctypeDict k = dget st.sctypeDict k ∧
      dget s.allTypes k = dget st.allTypes k) l st ⟨rfl, rfl⟩ ?_
  intro t kv hkv ht
  by_cases hnpy : py_startswith kv.1 "NPY_" = true
  · rw [regStep_npy hnpy]
    exact ht
  · rw [regStep_concrete (by simpa using hnpy)]
    constructor
    · rw [show dget (dset t.sctypeDict kv.1 kv.2.type) k = dget t.sctypeDict k from
        dget_dset_ne _ _ (fun h => hk kv hkv h.symm)]
      exact ht.1
    · rw [show dget (dset t.allTypes kv.1 kv.2.type) k = dget t.allTypes k from
        dget_dset_ne _ _ (fun h => hk kv hkv h.symm)]
      exact ht.2

theorem regFold_lookup {T : Type} :
    ∀ (l : List (String × TypeInfoEntry T)) (st : Tables T) {k : String}
      {v : TypeInfoEntry T}, (k, v) ∈ l → (l.map (fun kv => kv.1)).Nodup →
      py_startswith k "NPY_" = false →
      dget (l.foldl regStep st).sctypeDict k = some v.type ∧
      dget (l.foldl regStep st).allTypes k = some v.type := by
  intro l
  induction l with
  | nil => intro st k v h; cases h
  | cons kv l ih =>
    intro st k v hmem hnd hnpy
    rw [List.map_cons, List.nodup_cons] at hnd
    rcases List.mem_cons.mp hmem with heq | htail
    · have hk : kv.1 = k := (congrArg Prod.fst heq).symm
      have hv : kv.2 = v := (congrArg Prod.snd heq).symm
      rw [List.foldl_cons]
      have hfr := regFold_frame l (regStep st kv) k ?_
      · rw [hfr.1, hfr.2, regStep_concrete (hk ▸ hnpy)]
        rw [hk, hv]
        exact ⟨dget_dset_self _ _ _, dget_dset_self _ _ _⟩
      · intro kv' hkv' he
        apply hnd.1
        rw [hk, ← he]
        exact List.mem_map_of_mem (fun p => p.1) hkv'
    · rw [List.foldl_cons]
      exact ih (regStep st kv) htail hnd.2 hnpy

theorem regFold_cnames_lookup {T : Type} :
    ∀ (l : List (String × TypeInfoEntry T)) (st : Tables T) {k : String}
      {v : TypeInfoEntry T}, (k, v) ∈ l → (l.map (fun kv => kv.1)).Nodup →
      py_startswith k "NPY_" = true →
      dget (l.foldl regStep st).c_names_dict (k.drop 4) = some v := by
  intro l
  induction l with
  | nil => intro st k v h; cases h
  | cons kv l ih =>
    intro st k v hmem hnd hnpy
    rw [List.map_cons, List.nodup_cons] at hnd
    rcases List.mem_cons.mp hmem with heq | htail
    · have hk : kv.1 = k := (congrArg Prod.fst heq).symm
      have hv : kv.2 = v := (congrArg Prod.snd heq).symm
      rw [List.foldl_cons]
      refine foldl_invariant regStep
        (fun s => dget s.c_names_dict (k.drop 4) = some v) l (regStep st kv) ?_ ?_
      · rw [regStep_npy (hk ▸ hnpy)]
        rw [hk, hv]
        exact dget_dset_self _ _ _
      · intro t kv' hkv' ht
        by_cases hnpy' : py_startswith kv'.1 "NPY_" = true
        · rw [regStep_npy hnpy']
          have hne : k.drop 4 ≠ kv'.1.drop 4 := by
            intro hd
            have hkk : k = kv'.1 := npy_drop_inj hnpy hnpy' hd
            apply hnd.1
            rw [hk, hkk]
            exact List.mem_map_of_mem (fun p => p.1) hkv'
          rw [show dget (dset t.c_names_dict (kv'.1.drop 4) kv'.2) (k.drop 4)
              = dget t.c_names_dict (k.drop 4) from dget_dset_ne _ _ hne]
          exact ht
        · rw [regStep_concrete (by simpa using hnpy')]
          exact ht
    · rw [List.foldl_cons]
      exact ih (regStep st kv) htail hnd.2 hnpy

/-! ### Step destructors for the three `Option`-valued phases -/

theorem aliasStep_some {T : Type} {st st' : Tables T} {kv : String × String}
    (h : aliasStep st kv = some st') :
    ∃ t, dget st.allTypes kv.2 = some t ∧
      st' = { st with sctypeDict := dset st.sctypeDict kv.1 t,
                      allTypes := dset st.allTypes kv.1 t } := by
  cases hl : dget st.allTypes kv.2 with
  | none => rw [aliasStep, hl] at h; cases h
  | some t =>
    rw [aliasStep, hl] at h
    exact ⟨t, rfl, (Option.some_inj.mp h).symm⟩

theorem extraAliasStep_some {T : Type} {st st' : Tables T} {kv : String × String}
    (h : extraAliasStep st kv = some st') :
    ∃ t, dget st.allTypes kv.2 = some t ∧
      st' = { st with sctypeDict := dset st.sctypeDict kv.1 t } := by
  cases hl : dget st.allTypes kv.2 with
  | none => rw [extraAliasStep, hl] at h; cases h
  | some t =>
    rw [extraAliasStep, hl] at h
    exact ⟨t, rfl, (Option.some_inj.mp h).symm⟩

theorem extendedStep_some {T : Type} {env : NumpyEnv T} {st st' : Tables T}
    {p : Bool × String} (h : extendedStep env st p = some st') :
    ∃ L, dget st.allTypes p.2 = some L ∧
      ((dmem st.allTypes (extended_prec_name p.1 (env.itemsize L * 8)) = true ∧
        st' = st) ∨
       (dmem st.allTypes (extended_prec_name p.1 (env.itemsize L * 8)) = false ∧
        st' = { st with
          sctypeDict := dset st.sctypeDict (extended_prec_name p.1 (env.itemsize L * 8)) L,
          allTypes := dset st.allTypes (extended_prec_name p.1 (env.itemsize L * 8)) L })) := by
  cases hl : dget st.allTypes p.2 with
  | none => rw [extendedStep, hl] at h; cases h
  | some L =>
    rw [extendedStep, hl] at h
    refine ⟨L, rfl, ?_⟩
    simp only [Option.map_some', Option.some_inj] at h
    by_cases hm : dmem st.allTypes (extended_prec_name p.1 (env.itemsize L * 8)) = true
    · left
      refine ⟨hm, ?_⟩
      rw [← h, if_pos hm]
    · right
      have hm' : dmem st.allTypes (extended_prec_name p.1 (env.itemsize L * 8)) = false := by
        simpa using hm
      refine ⟨hm', ?_⟩
      rw [← h, if_neg hm]

/-! ### Frame and structure lemmas for the later phases -/

theorem aliasPhase_pres {T : Type} {st st' : Tables T} (h : aliasPhase st = some st')
    {k : String} (hk : k ∉ _aliases.map (fun p => p.1)) :
    dget st'.sctypeDict k = dget st.sctypeDict k ∧
    dget st'.allTypes k = dget st.allTypes k ∧
    st'.c_names_dict = st.c_names_dict := by
  refine foldlM_invariant aliasStep
    (fun s => dget s.sctypeDict k = dget st.sctypeDict k ∧
      dget s.allTypes k = dget st.allTypes k ∧ s.c_names_dict = st.c_names_dict)
    _aliases st st' h ⟨rfl, rfl, rfl⟩ ?_
  intro t kv t' hkv ht hstep
  obtain ⟨w, _, rfl⟩ := aliasStep_some hstep
  have hne : k ≠ kv.1 := fun he => hk (he ▸ List.mem_map_of_mem (fun p => p.1) hkv)
  exact ⟨(dget_dset_ne _ _ hne).trans ht.1, (dget_dset_ne _ _ hne).trans ht.2.1, ht.2.2⟩

theorem extraAliasPhase_pres {T : Type} {st st' : Tables T}
    (h : extraAliasPhase st = some st') {k : String}
    (hk : k ∉ _extra_aliases.map (fun p => p.1)) :
    dget st'.sctypeDict k = dget st.sctypeDict k := by
  refine foldlM_invariant extraAliasStep
    (fun s => dget s.sctypeDict k = dget st.sctypeDict k)
    _extra_aliases st st' h rfl ?_
  intro t kv t' hkv ht hstep
  obtain ⟨w, _, rfl⟩ := extraAliasStep_some hstep
  have hne : k ≠ kv.1 := fun he => hk (he ▸ List.mem_map_of_mem (fun p => p.1) hkv)
  exact (dget_dset_ne _ _ hne).trans ht

theorem extraAliasPhase_allTypes {T : Type} {st st' : Tables T}
    (h : extraAliasPhase st = some st') :
    st'.allTypes = st.allTypes ∧ st'.c_names_dict = st.c_names_dict := by
  refine foldlM_invariant extraAliasStep
    (fun s => s.allTypes = st.allTypes ∧ s.c_names_dict = st.c_names_dict)
    _extra_aliases st st' h ⟨rfl, rfl⟩ ?_
  intro t kv t' _ ht hstep
  obtain ⟨w, _, rfl⟩ := extraAliasStep_some hstep
  exact ht

theorem extendedPhase_pres_of_mem {T : Type} {env : NumpyEnv T} {st st' : Tables T}
    (h : extendedPhase env st = some st') {k : String}
    (hmem : dmem st.allTypes k = true) :
    dget st'.sctypeDict k = dget st.sctypeDict k ∧
    dget st'.allTypes k = dget st.allTypes k ∧
    st'.c_names_dict = st.c_names_dict := by
  have main := foldlM_invariant (extendedStep env)
    (fun s => dget s.sctypeDict k = dget st.sctypeDict k ∧
      dget s.allTypes k = dget st.allTypes k ∧
      s.c_names_dict = st.c_names_dict ∧ dmem s.allTypes k = true)
    [(false, "longdouble"), (true, "clongdouble")] st st' h ⟨rfl, rfl, rfl, hmem⟩ ?_
  · exact ⟨main.1, main.2.1, main.2.2.1⟩
  intro t p t' _ ht hstep
  obtain ⟨L, _, hcase⟩ := extendedStep_some hstep
  rcases hcase with ⟨_, rfl⟩ | ⟨hm, rfl⟩
  · exact ht
  · have hne : k ≠ extended_prec_name p.1 (env.itemsize L * 8) := by
      intro he
      rw [← he] at hm
      rw [ht.2.2.2] at hm
      cases hm
    refine ⟨(dget_dset_ne _ _ hne).trans ht.1, (dget_dset_ne _ _ hne).trans ht.2.1,
      ht.2.2.1, ?_⟩
    rw [dmem_dset]
    rw [ht.2.2.2]
    simp

theorem aliasPhase_cnames {T : Type} {st st' : Tables T}
    (h : aliasPhase st = some st') : st'.c_names_dict = st.c_names_dict := by
  refine foldlM_invariant aliasStep (fun s => s.c_names_dict = st.c_names_dict)
    _aliases st st' h rfl ?_
  intro t kv t' _ ht hstep
  obtain ⟨w, _, rfl⟩ := aliasStep_some hstep
  exact ht

theorem extendedPhase_cnames {T : Type} {env : NumpyEnv T} {st st' : Tables T}
    (h : extendedPhase env st = some st') : st'.c_names_dict = st.c_names_dict := by
  refine foldlM_invariant (extendedStep env) (fun s => s.c_names_dict = st.c_names_dict)
    [(false, "longdouble"), (true, "clongdouble")] st st' h rfl ?_
  intro t p t' _ ht hstep
  obtain ⟨L, _, hcase⟩ := extendedStep_some hstep
  rcases hcase with ⟨_, rfl⟩ | ⟨_, rfl⟩ <;> exact ht

theorem buildTables_decomp {T : Type} {env : NumpyEnv T} {tbl : Tables T}
    (h : buildTables env = some tbl) :
    ∃ st2 st3, aliasPhase (registryPhase env (abstractPhase env)) = some st2 ∧
      extraAliasPhase st2 = some st3 ∧ extendedPhase env st3 = some tbl := by
  rw [buildTables] at h
  cases h2 : aliasPhase (registryPhase env (abstractPhase env)) with
  | none => rw [h2] at h; cases h
  | some st2 =>
    rw [h2] at h
    simp only [Option.some_bind] at h
    cases h3 : extraAliasPhase st2 with
    | none => rw [h3] at h; cases h
    | some st3 =>
      rw [h3] at h
      simp only [Option.some_bind] at h
      exact ⟨st2, st3, rfl, h3, h⟩

/-! ### Where the keys of each table can come from -/

theorem bool_or_elim {a b : Bool} (h : (a || b) = true) : a = true ∨ b = true := by
  cases a
  · exact Or.inr (by simpa using h)
  · exact Or.inl rfl

theorem abstract_allTypes_origin {T : Type} (env : NumpyEnv T) {k : String}
    (h : dmem (abstractPhase env).allTypes k = true) : k ∈ _abstract_type_names := by
  refine foldl_invariant (fun d n => dset d n (env.attr n))
    (fun d => dmem d k = true → k ∈ _abstract_type_names)
    _abstract_type_names [] ?_ ?_ h
  · intro hh; cases hh
  · intro d n hn hd hmem
    rw [dmem_dset] at hmem
    rcases bool_or_elim hmem with he | hm
    · have : n = k := by simpa using he
      exact this ▸ hn
    · exact hd hm

theorem regFold_sctypeDict_origin {T : Type} (l : List (String × TypeInfoEntry T))
    (st : Tables T) {k : String}
    (h : dmem (l.foldl regStep st).sctypeDict k = true) :
    dmem st.sctypeDict k = true ∨
      ∃ v, (k, v) ∈ l ∧ py_startswith k "NPY_" = false := by
  refine foldl_invariant regStep
    (fun s => dmem s.sctypeDict k = true →
      dmem st.sctypeDict k = true ∨ ∃ v, (k, v) ∈ l ∧ py_startswith k "NPY_" = false)
    l st (fun hm => Or.inl hm) ?_ h
  intro t kv hkv ht hmem
  by_cases hnpy : py_startswith kv.1 "NPY_" = true
  · rw [regStep_npy hnpy] at hmem
    exact ht hmem
  · have hnpy' : py_startswith kv.1 "NPY_" = false := by simpa using hnpy
    rw [regStep_concrete hnpy'] at hmem
    rw [dmem_dset] at hmem
    rcases bool_or_elim hmem with he | hm
    · have hke : kv.1 = k := by simpa using he
      exact Or.inr ⟨kv.2, by rw [← hke]; exact hkv, hke ▸ hnpy'⟩
    · exact ht hm

theorem regFold_allTypes_origin {T : Type} (l : List (String × TypeInfoEntry T))
    (st : Tables T) {k : String}
    (h : dmem (l.foldl regStep st).allTypes k = true) :
    dmem st.allTypes k = true ∨
      ∃ v, (k, v) ∈ l ∧ py_startswith k "NPY_" = false := by
  refine foldl_invariant regStep
    (fun s => dmem s.allTypes k = true →
      dmem st.allTypes k = true ∨ ∃ v, (k, v) ∈ l ∧ py_startswith k "NPY_" = false)
    l st (fun hm => Or.inl hm) ?_ h
  intro t kv hkv ht hmem
  by_cases hnpy : py_startswith kv.1 "NPY_" = true
  · rw [regStep_npy hnpy] at hmem
    exact ht hmem
  · have hnpy' : py_startswith kv.1 "NPY_" = false := by simpa using hnpy
    rw [regStep_concrete hnpy'] at hmem
    rw [dmem_dset] at hmem
    rcases bool_or_elim hmem with he | hm
    · have hke : kv.1 = k := by simpa using he
      exact Or.inr ⟨kv.2, by rw [← hke]; exact hkv, hke ▸ hnpy'⟩
    · exact ht hm

theorem aliasPhase_origin {T : Type} {st st' : Tables T} (h : aliasPhase st = some st')
    {k : String} :
    (dmem st'.sctypeDict k = true →
      dmem st.sctypeDict k = true ∨ k ∈ _aliases.map (fun p => p.1)) ∧
    (dmem st'.allTypes k = true →
      dmem st.allTypes k = true ∨ k ∈ _aliases.map (fun p => p.1)) := by
  refine foldlM_invariant aliasStep
    (fun s => (dmem s.sctypeDict k = true →
        dmem st.sctypeDict k = true ∨ k ∈ _aliases.map (fun p => p.1)) ∧
      (dmem s.allTypes k = true →
        dmem st.allTypes k = true ∨ k ∈ _aliases.map (fun p => p.1)))
    _aliases st st' h ⟨fun hm => Or.inl hm, fun hm => Or.inl hm⟩ ?_
  intro t kv t' hkv ht hstep
  obtain ⟨w, _, rfl⟩ := aliasStep_some hstep
  constructor <;> intro hmem <;> rw [dmem_dset] at hmem <;>
    rcases bool_or_elim hmem with he | hm
  · exact Or.inr (by have : kv.1 = k := by simpa using he
                     exact this ▸ List.mem_map_of_mem (fun p => p.1) hkv)
  · exact ht.1 hm
  · exact Or.inr (by have : kv.1 = k := by simpa using he
                     exact this ▸ List.mem_map_of_mem (fun p => p.1) hkv)
  · exact ht.2 hm

theorem extraAliasPhase_origin {T : Type} {st st' : Tables T}
    (h : extraAliasPhase st = some st') {k : String}
    (hmem : dmem st'.sctypeDict k = true) :
    dmem st.sctypeDict k = true ∨ k ∈ _extra_aliases.map (fun p => p.1) := by
  refine foldlM_invariant extraAliasStep
    (fun s => dmem s.sctypeDict k = true →
      dmem st.sctypeDict k = true ∨ k ∈ _extra_aliases.map (fun p => p.1))
    _extra_aliases st st' h (fun hm => Or.inl hm) ?_ hmem
  intro t kv t' hkv ht hstep
  obtain ⟨w, _, rfl⟩ := extraAliasStep_some hstep
  intro hmem'
  rw [dmem_dset] at hmem'
  rcases bool_or_elim hmem' with he | hm
  · have : kv.1 = k := by simpa using he
    exact Or.inr (this ▸ List.mem_map_of_mem (fun p => p.1) hkv)
  · exact ht hm

theorem extendedPhase_origin {T : Type} {env : NumpyEnv T} {st st' : Tables T}
    (h : extendedPhase env st = some st') {k : String} :
    (dmem st'.sctypeDict k = true →
      dmem st.sctypeDict k = true ∨ ∃ b n, k = extended_prec_name b n) ∧
    (dmem st'.allTypes k = true →
      dmem st.allTypes k = true ∨ ∃ b n, k = extended_prec_name b n) := by
  refine foldlM_invariant (extendedStep env)
    (fun s => (dmem s.sctypeDict k = true →
        dmem st.sctypeDict k = true ∨ ∃ b n, k = extended_prec_name b n) ∧
      (dmem s.allTypes k = true →
        dmem st.allTypes k = true ∨ ∃ b n, k = extended_prec_name b n))
    [(false, "longdouble"), (true, "clongdouble")] st st' h
    ⟨fun hm => Or.inl hm, fun hm => Or.inl hm⟩ ?_
  intro t p t' hp ht hstep
  obtain ⟨L, _, hcase⟩ := extendedStep_some hstep
  rcases hcase with ⟨_, rfl⟩ | ⟨_, rfl⟩
  · exact ht
  constructor <;> intro hmem <;> rw [dmem_dset] at hmem <;>
    rcases bool_or_elim hmem with he | hm
  · exact Or.inr ⟨p.1, env.itemsize L * 8, (by simpa using he : _ = k).symm⟩
  · exact ht.1 hm
  · exact Or.inr ⟨p.1, env.itemsize L * 8, (by simpa using he : _ = k).symm⟩
  · exact ht.2 hm

theorem buildTables_sctypeDict_origin {T : Type} {env : NumpyEnv T} {tbl : Tables T}
    (h : buildTables env = some tbl) {k : String}
    (hmem : dmem tbl.sctypeDict k = true) :
    (∃ v, (k, v) ∈ env.typeinfo ∧ py_startswith k "NPY_" = false) ∨
      k ∈ _aliases.map (fun p => p.1) ∨ k ∈ _extra_aliases.map (fun p => p.1) ∨
      ∃ b n, k = extended_prec_name b n := by
  obtain ⟨st2, st3, h2, h3, h4⟩ := buildTables_decomp h
  rcases (extendedPhase_origin h4).1 hmem with hm3 | hext
  · rcases extraAliasPhase_origin h3 hm3 with hm2 | hextra
    · rcases (aliasPhase_origin h2).1 hm2 with hm1 | halias
      · rcases regFold_sctypeDict_origin env.typeinfo (abstractPhase env) hm1 with h0 | hreg
        · cases h0
        · exact Or.inl hreg
      · exact Or.inr (Or.inl halias)
    · exact Or.inr (Or.inr (Or.inl hextra))
  · exact Or.inr (Or.inr (Or.inr hext))

theorem buildTables_allTypes_origin {T : Type} {env : NumpyEnv T} {tbl : Tables T}
    (h : buildTables env = some tbl) {k : String}
    (hmem : dmem tbl.allTypes k = true) :
    k ∈ _abstract_type_names ∨
      (∃ v, (k, v) ∈ env.typeinfo ∧ py_startswith k "NPY_" = false) ∨
      k ∈ _aliases.map (fun p => p.1) ∨
      ∃ b n, k = extended_prec_name b n := by
  obtain ⟨st2, st3, h2, h3, h4⟩ := buildTables_decomp h
  rcases (extendedPhase_origin h4).2 hmem with hm3 | hext
  · rw [(extraAliasPhase_allTypes h3).1] at hm3
    rcases (aliasPhase_origin h2).2 hm3 with hm1 | halias
    · rcases regFold_allTypes_origin env.typeinfo (abstractPhase env) hm1 with h0 | hreg
      · exact Or.inl (abstract_allTypes_origin env h0)
      · exact Or.inr (Or.inl hreg)
    · exact Or.inr (Or.inr (Or.inl halias))
  · exact Or.inr (Or.inr (Or.inr hext))

/-! ### Final lookups of registry names -/

theorem final_registry_lookup {T : Type} {env : NumpyEnv T} {tbl : Tables T}
    (h : buildTables env = some tbl)
    (hnd : (env.typeinfo.map (fun kv => kv.1)).Nodup)
    {k : String} {v : TypeInfoEntry T} (hkv : (k, v) ∈ env.typeinfo)
    (hnpy : py_startswith k "NPY_" = false)
    (hak : k ∉ _aliases.map (fun p => p.1))
    (hek : k ∉ _extra_aliases.map (fun p => p.1)) :
    dget tbl.sctypeDict k = some v.type ∧ dget tbl.allTypes k = some v.type := by
  obtain ⟨st2, st3, h2, h3, h4⟩ := buildTables_decomp h
  have hreg : dget (registryPhase env (abstractPhase env)).sctypeDict k = some v.type ∧
      dget (registryPhase env (abstractPhase env)).allTypes k = some v.type :=
    regFold_lookup env.typeinfo (abstractPhase env) hkv hnd hnpy
  have ha := aliasPhase_pres h2 hak
  have he3 := extraAliasPhase_pres h3 hek
  have hAT3 := (extraAliasPhase_allTypes h3).1
  have hsc3 : dget st3.sctypeDict k = some v.type := by
    rw [he3, ha.1]; exact hreg.1
  have hat3 : dget st3.allTypes k = some v.type := by
    rw [hAT3, ha.2.1]; exact hreg.2
  have hext := extendedPhase_pres_of_mem h4 (dmem_of_dget_some hat3)
  exact ⟨by rw [hext.1]; exact hsc3, by rw [hext.2.1]; exact hat3⟩

/-- C1: a registry name without the reserved `NPY_` prefix is, once the
table construction has completed, a key of the broad mapping `sctypeDict`
and resolves to the concrete type the registry associates with it.  The
registry is a dict, so its names are pairwise distinct, and (as the spec
assumes throughout) the registry's public names do not collide with the
fixed synonym tables `_aliases` / `_extra_aliases`. -/
theorem sctypeDict_resolves_registry {T : Type} (env : NumpyEnv T) (tbl : Tables T)
    (h : buildTables env = some tbl)
    (hnd : (env.typeinfo.map (fun kv => kv.1)).Nodup)
    (k : String) (v : TypeInfoEntry T) (hkv : (k, v) ∈ env.typeinfo)
    (hnpy : py_startswith k "NPY_" = false)
    (hak : k ∉ _aliases.map (fun p => p.1))
    (hek : k ∉ _extra_aliases.map (fun p => p.1)) :
    dget tbl.sctypeDict k = some v.type :=
  (final_registry_lookup h hnd hkv hnpy hak hek).1

/-- Witness for C1 at the concrete environment: `"float64"` resolves in
the broad mapping to the registry's handle `18`. -/
theorem sctypeDict_resolves_registry_witness :
    dget tblW.sctypeDict "float64" = some 18 :=
  sctypeDict_resolves_registry envW tblW (by decide) (by decide)
    "float64" ⟨'d', 18⟩ (by decide) (by decide) (by decide) (by decide)

/-- C4: a registry entry whose name carries the reserved `NPY_` prefix is
diverted to `c_names_dict` under the prefix-stripped name, and that name
never becomes a key of `sctypeDict` or of `allTypes`. -/
theorem npy_entries_diverted {T : Type} (env : NumpyEnv T) (tbl : Tables T)
    (h : buildTables env = some tbl)
    (hnd : (env.typeinfo.map (fun kv => kv.1)).Nodup)
    (k : String) (v : TypeInfoEntry T) (hkv : (k, v) ∈ env.typeinfo)
    (hnpy : py_startswith k "NPY_" = true) :
    dget tbl.c_names_dict (k.drop 4) = some v ∧
    dmem tbl.sctypeDict k = false ∧ dmem tbl.allTypes k = false := by
  obtain ⟨st2, st3, h2, h3, h4⟩ := buildTables_decomp h
  refine ⟨?_, ?_, ?_⟩
  · rw [extendedPhase_cnames h4, (extraAliasPhase_allTypes h3).2, aliasPhase_cnames h2]
    exact regFold_cnames_lookup env.typeinfo (abstractPhase env) hkv hnd hnpy
  · cases hb : dmem tbl.sctypeDict k with
    | false => rfl
    | true =>
      exfalso
      rcases buildTables_sctypeDict_origin h hb with ⟨v', _, hfalse⟩ | hal | hex | ⟨b, n, he⟩
      · rw [hnpy] at hfalse; cases hfalse
      · simp only [_aliases, List.map_cons, List.map_nil, List.mem_cons,
          List.not_mem_nil, or_false] at hal
        rcases hal with rfl | rfl | rfl | rfl | rfl <;> cases hnpy
      · simp only [_extra_aliases, List.map_cons, List.map_nil, List.mem_cons,
          List.not_mem_nil, or_false] at hex
        rcases hex with rfl | rfl | rfl | rfl | rfl | rfl | rfl | rfl | rfl | rfl | rfl <;>
          cases hnpy
      · rw [he, extName_not_npy b n] at hnpy; cases hnpy
  · cases hb : dmem tbl.allTypes k with
    | false => rfl
    | true =>
      exfalso
      rcases buildTables_allTypes_origin h hb with habs | ⟨v', _, hfalse⟩ | hal | ⟨b, n, he⟩
      · simp only [_abstract_type_names, List.mem_cons, List.not_mem_nil, or_false] at habs
        rcases habs with rfl | rfl | rfl | rfl | rfl | rfl | rfl | rfl | rfl | rfl <;>
          cases hnpy
      · rw [hnpy] at hfalse; cases hfalse
      · simp only [_aliases, List.map_cons, List.map_nil, List.mem_cons,
          List.not_mem_nil, or_false] at hal
        rcases hal with rfl | rfl | rfl | rfl | rfl <;> cases hnpy
      · rw [he, extName_not_npy b n] at hnpy; cases hnpy

/-- Witness for C4 at the concrete environment: `"NPY_BYTE"` lands in
`c_names_dict` as `"BYTE"` and is in neither name table. -/
theorem npy_entries_diverted_witness :
    dget tblW.c_names_dict "BYTE" = some ⟨'i', 24⟩ ∧
    dmem tblW.sctypeDict "NPY_BYTE" = false ∧ dmem tblW.allTypes "NPY_BYTE" = false :=
  npy_entries_diverted envW tblW (by decide) (by decide)
    "NPY_BYTE" ⟨'i', 24⟩ (by decide) (by decide)

/-! ### Every broad value is a narrow value (C8) -/



theorem sameKeyInv_abstract {T : Type} (env : NumpyEnv T) : SameKeyInv (abstractPhase env) := by
  intro k v hkv
  simp [abstractPhase, dget] at hkv

theorem sameKeyInv_regStep {T : Type} {t : Tables T} (kv : String × TypeInfoEntry T)
    (ht : SameKeyInv t) : SameKeyInv (regStep t kv) := by
  by_cases hnpy : py_startswith kv.1 "NPY_" = true
  · rw [regStep_npy hnpy]
    exact ht
  · rw [regStep_concrete (by simpa using hnpy)]
    intro k v hsct
    by_cases hke : k = kv.1
    · subst hke
      rw [dget_dset_self] at hsct
      rw [dget_dset_self]
      exact hsct
    · rw [dget_dset_ne _ _ hke] at hsct
      rw [dget_dset_ne _ _ hke]
      exact ht k v hsct

theorem valueInv_extended {T : Type} {env : NumpyEnv T} {st st' : Tables T}
    (h : extendedPhase env st = some st') (hv : ValueInv st) : ValueInv st' := by
  refine foldlM_invariant (extendedStep env) ValueInv
    [(false, "longdouble"), (true, "clongdouble")] st st' h hv ?_
  intro t p t' _ ht hstep
  obtain ⟨L, _, hcase⟩ := extendedStep_some hstep
  rcases hcase with ⟨_, rfl⟩ | ⟨hm, rfl⟩
  · exact ht
  · intro k v hsct
    by_cases hke : k = extended_prec_name p.1 (env.itemsize L * 8)
    · rw [hke, dget_dset_self] at hsct
      exact ⟨extended_prec_name p.1 (env.itemsize L * 8),
        by rw [dget_dset_self]; exact hsct⟩
    · rw [dget_dset_ne _ _ hke] at hsct
      obtain ⟨k2, hk2⟩ := ht k v hsct
      have hk2ne : k2 ≠ extended_prec_name p.1 (env.itemsize L * 8) := by
        intro he
        rw [he] at hk2
        rw [dget_none_of_dmem_false hm] at hk2
        cases hk2
      exact ⟨k2, by rw [dget_dset_ne _ _ hk2ne]; exact hk2⟩

/-- C8: after construction, every value of the broad mapping `sctypeDict`
is also a value of the narrow mapping `allTypes` — aliases are defined by
resolving names already registered in `allTypes`, so the broad mapping
introduces no new type handle. -/
theorem broad_values_in_narrow {T : Type} (env : NumpyEnv T) (tbl : Tables T)
    (h : buildTables env = some tbl)
    (k : String) (v : T) (hk : dget tbl.sctypeDict k = some v) :
    ∃ k2, dget tbl.allTypes k2 = some v := by
  obtain ⟨st2, st3, h2, h3, h4⟩ := buildTables_decomp h
  have hP1 : SameKeyInv (registryPhase env (abstractPhase env)) :=
    foldl_invariant regStep SameKeyInv env.typeinfo (abstractPhase env)
      (sameKeyInv_abstract env) (fun t kv _ ht => sameKeyInv_regStep kv ht)
  have hP2 : SameKeyInv st2 := by
    refine foldlM_invariant aliasStep SameKeyInv _aliases _ st2 h2 hP1 ?_
    intro t kv t' _ ht hstep
    obtain ⟨w, _, rfl⟩ := aliasStep_some hstep
    intro k' v' hsct
    by_cases hke : k' = kv.1
    · subst hke
      rw [dget_dset_self] at hsct
      rw [dget_dset_self]
      exact hsct
    · rw [dget_dset_ne _ _ hke] at hsct
      rw [dget_dset_ne _ _ hke]
      exact ht k' v' hsct
  have hQ3 : ValueInv st3 := by
    refine foldlM_invariant extraAliasStep ValueInv _extra_aliases st2 st3 h3
      (fun k' v' hk' => ⟨k', hP2 k' v' hk'⟩) ?_
    intro t kv t' _ ht hstep
    obtain ⟨w, hw, rfl⟩ := extraAliasStep_some hstep
    intro k' v' hsct
    by_cases hke : k' = kv.1
    · subst hke
      rw [dget_dset_self] at hsct
      exact ⟨kv.2, hsct ▸ hw⟩
    · rw [dget_dset_ne _ _ hke] at hsct
      exact ht k' v' hsct
  exact valueInv_extended h4 hQ3 k v hk

/-- Witness for C8 at the concrete environment: the value of the alias
`"double"` is exposed by the narrow mapping under some key. -/
theorem broad_values_in_narrow_witness :
    ∃ k2, dget tblW.allTypes k2 = some 18 :=
  broad_values_in_narrow envW tblW (by decide) "double" 18 (by decide)

/-! ### Membership monotonicity of the later phases -/

theorem fold_dset_mem {T : Type} (f : String → T) :
    ∀ (l : List String) (d : Dict T) {nm : String}, nm ∈ l →
      dmem (l.foldl (fun d n => dset d n (f n)) d) nm = true := by
  intro l
  induction l with
  | nil => intro d nm h; cases h
  | cons n l ih =>
    intro d nm hmem
    rw [List.foldl_cons]
    rcases List.mem_cons.mp hmem with rfl | htail
    · refine foldl_invariant (fun d n => dset d n (f n))
        (fun d' => dmem d' nm = true) l (dset d nm (f nm)) ?_ ?_
      · show dmem (dset d nm (f nm)) nm = true
        rw [dmem_dset]
        simp
      · intro d' n' _ hd'
        show dmem (dset d' n' (f n')) nm = true
        rw [dmem_dset, hd']
        simp
    · exact ih (dset d n (f n)) htail

theorem buildTables_allTypes_mono {T : Type} {env : NumpyEnv T} {tbl : Tables T}
    (h : buildTables env = some tbl) {k : String}
    (hmem : dmem (abstractPhase env).allTypes k = true) :
    dmem tbl.allTypes k = true := by
  obtain ⟨st2, st3, h2, h3, h4⟩ := buildTables_decomp h
  have h1 : dmem (registryPhase env (abstractPhase env)).allTypes k = true := by
    refine foldl_invariant regStep (fun s => dmem s.allTypes k = true)
      env.typeinfo (abstractPhase env) hmem ?_
    intro t kv _ ht
    by_cases hnpy : py_startswith kv.1 "NPY_" = true
    · rw [regStep_npy hnpy]
      exact ht
    · rw [regStep_concrete (by simpa using hnpy)]
      rw [dmem_dset, ht]
      simp
  have hm2 : dmem st2.allTypes k = true := by
    refine foldlM_invariant aliasStep (fun s => dmem s.allTypes k = true)
      _aliases _ st2 h2 h1 ?_
    intro t kv t' _ ht hstep
    obtain ⟨w, _, rfl⟩ := aliasStep_some hstep
    rw [dmem_dset, ht]
    simp
  have hm3 : dmem st3.allTypes k = true := by
    rw [(extraAliasPhase_allTypes h3).1]
    exact hm2
  refine foldlM_invariant (extendedStep env) (fun s => dmem s.allTypes k = true)
    [(false, "longdouble"), (true, "clongdouble")] st3 tbl h4 hm3 ?_
  intro t p t' _ ht hstep
  obtain ⟨L, _, hcase⟩ := extendedStep_some hstep
  rcases hcase with ⟨_, rfl⟩ | ⟨_, rfl⟩
  · exact ht
  · rw [dmem_dset, ht]
    simp

/-- C10: the ten abstract category names are keys of the narrow mapping
`allTypes` but never keys of the broad mapping `sctypeDict` (assuming, as
everywhere, that the registry's own names do not include the abstract
category names). -/
theorem abstract_names_narrow_only {T : Type} (env : NumpyEnv T) (tbl : Tables T)
    (h : buildTables env = some tbl)
    (hreg : ∀ kv ∈ env.typeinfo, kv.1 ∉ _abstract_type_names) :
    ∀ nm ∈ _abstract_type_names,
      dmem tbl.allTypes nm = true ∧ dmem tbl.sctypeDict nm = false := by
  intro nm hnm
  constructor
  · exact buildTables_allTypes_mono h (fold_dset_mem env.attr _abstract_type_names [] hnm)
  · cases hb : dmem tbl.sctypeDict nm with
    | false => rfl
    | true =>
      exfalso
      rcases buildTables_sctypeDict_origin h hb with ⟨v', hv', _⟩ | hal | hex | ⟨b, n, he⟩
      · exact hreg (nm, v') hv' hnm
      · revert hal
        fin_cases hnm <;> decide
      · revert hex
        fin_cases hnm <;> decide
      · exact extName_not_abstract b n (he ▸ hnm)

/-- Witness for C10 at the concrete environment, at the name `"generic"`. -/
theorem abstract_names_narrow_only_witness :
    dmem tblW.allTypes "generic" = true ∧ dmem tblW.sctypeDict "generic" = false :=
  abstract_names_narrow_only envW tblW (by decide) (by decide) "generic" (by decide)

/-- C7: the convenience synonyms of `_extra_aliases` are written only to
the broad mapping: the convenience phase leaves `allTypes` untouched as a
whole, and none of the eleven names ever becomes a key of `allTypes`
(assuming the registry's names do not include them). -/
theorem convenience_only_broad {T : Type} (env : NumpyEnv T) (tbl : Tables T)
    (h : buildTables env = some tbl)
    (hreg : ∀ kv ∈ env.typeinfo, kv.1 ∉ _extra_aliases.map (fun p => p.1)) :
    (∀ st st' : Tables T, extraAliasPhase st = some st' → st'.allTypes = st.allTypes) ∧
    ∀ nm ∈ _extra_aliases.map (fun p => p.1), dmem tbl.allTypes nm = false := by
  constructor
  · intro st st' hst
    exact (extraAliasPhase_allTypes hst).1
  · intro nm hnm
    cases hb : dmem tbl.allTypes nm with
    | false => rfl
    | true =>
      exfalso
      rcases buildTables_allTypes_origin h hb with habs | ⟨v', hv', _⟩ | hal | ⟨b, n, he⟩
      · revert habs
        fin_cases hnm <;> decide
      · exact hreg (nm, v') hv' hnm
      · revert hal
        fin_cases hnm <;> decide
      · exact extName_not_extra_key b n (he ▸ hnm)

/-- Witness for C7 at the concrete environment, at the name `"float"`. -/
theorem convenience_only_broad_witness :
    dmem tblW.allTypes "float" = false :=
  (convenience_only_broad envW tblW (by decide) (by decide)).2 "float" (by decide)

/-! ### The group classifier -/


theorem allMem_addToGroup {T : Type} {st : SctypesLists T} {g : String} {t x : T}
    (h : allMem (addToGroup st g t) x) : allMem st x ∨ x = t := by
  unfold addToGroup at h
  split_ifs at h <;>
    simp only [allMem, List.mem_append, List.mem_singleton] at h ⊢ <;> tauto

theorem sctypesStep_time {T : Type} {env : NumpyEnv T} {st : SctypesLists T}
    {e : TypeInfoEntry T} (h : (e.kind == 'M' || e.kind == 'm') = true) :
    sctypesStep env st e = st := by
  simp [sctypesStep, h]

theorem sctypesStep_group {T : Type} {env : NumpyEnv T} {st : SctypesLists T}
    {e : TypeInfoEntry T} {g : String} (h : (e.kind == 'M' || e.kind == 'm') = false)
    (hc : classify env e.type = some g) :
    sctypesStep env st e = addToGroup st g e.type := by
  simp [sctypesStep, h, hc]

theorem sctypesStep_none {T : Type} {env : NumpyEnv T} {st : SctypesLists T}
    {e : TypeInfoEntry T} (h : (e.kind == 'M' || e.kind == 'm') = false)
    (hc : classify env e.type = none) :
    sctypesStep env st e = st := by
  simp [sctypesStep, h, hc]

theorem allMem_sctypes_iff {T : Type} [DecidableEq T] (env : NumpyEnv T) (x : T) :
    allMem (sctypes env) x ↔ allMem (classifiedSctypes env) x := by
  simp [sctypes, allMem, List.mem_mergeSort]

/-- A type all of whose registry entries are datetime/timedelta kinds is
skipped by the classifier and lands in no group list. -/
theorem no_group_of_time_only {T : Type} [DecidableEq T] (env : NumpyEnv T) {τ : T}
    (hOnly : ∀ e ∈ env.typeinfo.map (fun kv => kv.2), e.type = τ →
      e.kind = 'M' ∨ e.kind = 'm') :
    ¬ allMem (sctypes env) τ := by
  rw [allMem_sctypes_iff]
  intro hmem
  have : ¬ allMem (classifiedSctypes env) τ := by
    refine foldl_invariant (sctypesStep env) (fun st => ¬ allMem st τ)
      ((env.typeinfo.map (fun kv => kv.2)).dedup)
      { int := [], uint := [], float := [], complex := [], others := [] }
      ?_ ?_
    · intro hm
      simp [allMem] at hm
    · intro st e he hst hm
      cases htime : (e.kind == 'M' || e.kind == 'm') with
      | true => rw [sctypesStep_time htime] at hm; exact hst hm
      | false =>
        cases hc : classify env e.type with
        | none => rw [sctypesStep_none htime hc] at hm; exact hst hm
        | some g =>
          rw [sctypesStep_group htime hc] at hm
          rcases allMem_addToGroup hm with hold | rfl
          · exact hst hold
          · have := hOnly e (List.mem_dedup.mp he) rfl
            rcases this with hM | hm'
            · rw [hM] at htime; cases htime
            · rw [hm'] at htime; cases htime
  exact this hmem

/-- C9: a registry entry of datetime/timedelta kind still populates both
name tables under its name (the time exclusion applies only to the group
classifier), and its concrete type appears in none of the five group
lists when every registry entry carrying that type is of time kind. -/
theorem time_kinds_named_not_grouped {T : Type} [DecidableEq T]
    (env : NumpyEnv T) (tbl : Tables T)
    (h : buildTables env = some tbl)
    (hnd : (env.typeinfo.map (fun kv => kv.1)).Nodup)
    (k : String) (v : TypeInfoEntry T) (hkv : (k, v) ∈ env.typeinfo)
    (hnpy : py_startswith k "NPY_" = false)
    (hak : k ∉ _aliases.map (fun p => p.1))
    (hek : k ∉ _extra_aliases.map (fun p => p.1))
    (hkind : v.kind = 'M' ∨ v.kind = 'm')
    (hOnly : ∀ e ∈ env.typeinfo.map (fun kv => kv.2), e.type = v.type →
      e.kind = 'M' ∨ e.kind = 'm') :
    dget tbl.sctypeDict k = some v.type ∧ dget tbl.allTypes k = some v.type ∧
    ¬ allMem (sctypes env) v.type := by
  obtain ⟨h1, h2⟩ := final_registry_lookup h hnd hkv hnpy hak hek
  exact ⟨h1, h2, no_group_of_time_only env hOnly⟩

/-- Witness for C9 at the concrete environment: the `"datetime64"` entry
(kind `'M'`, handle `23`). -/
theorem time_kinds_named_not_grouped_witness :
    dget tblW.sctypeDict "datetime64" = some 23 ∧
    dget tblW.allTypes "datetime64" = some 23 ∧
    ¬ allMem (sctypes envW) 23 :=
  time_kinds_named_not_grouped envW tblW (by decide) (by decide)
    "datetime64" ⟨'M', 23⟩ (by decide) (by decide) (by decide) (by decide)
    (by decide) (by decide)

/-! ### Counting group membership (C2) -/


theorem classify_mem {T : Type} {env : NumpyEnv T} {t : T} {g : String}
    (hc : classify env t = some g) :
    g ∈ (["int", "uint", "float", "complex", "others"] : List String) := by
  unfold classify at hc
  cases hf : (([("int", "signedinteger"), ("uint", "unsignedinteger"),
      ("float", "floating"), ("complex", "complexfloating"),
      ("others", "generic")] : List (String × String)).find?
      (fun p => env.issubclass t (env.attr p.2))) with
  | none => rw [hf] at hc; cases hc
  | some p =>
    rw [hf] at hc
    simp only [Option.map_some', Option.some_inj] at hc
    have hp := List.mem_of_find?_eq_some hf
    simp only [List.mem_cons, List.not_mem_nil, or_false] at hp
    rcases hp with rfl | rfl | rfl | rfl | rfl <;> rw [← hc] <;> simp

theorem classify_isSome_of_generic {T : Type} {env : NumpyEnv T} {t : T}
    (hg : env.issubclass t (env.attr "generic") = true) :
    ∃ g, classify env t = some g := by
  unfold classify
  cases hf : (([("int", "signedinteger"), ("uint", "unsignedinteger"),
      ("float", "floating"), ("complex", "complexfloating"),
      ("others", "generic")] : List (String × String)).find?
      (fun p => env.issubclass t (env.attr p.2))) with
  | none =>
    exfalso
    have := List.find?_eq_none.mp hf ("others", "generic") (by simp)
    exact this (by simpa using hg)
  | some p => exact ⟨p.1, rfl⟩

theorem classify_others_of {T : Type} {env : NumpyEnv T} {t : T}
    (h1 : env.issubclass t (env.attr "signedinteger") = false)
    (h2 : env.issubclass t (env.attr "unsignedinteger") = false)
    (h3 : env.issubclass t (env.attr "floating") = false)
    (h4 : env.issubclass t (env.attr "complexfloating") = false)
    (h5 : env.issubclass t (env.attr "generic") = true) :
    classify env t = some "others" := by
  unfold classify
  simp [List.find?, h1, h2, h3, h4, h5]

theorem count_snoc {T : Type} [DecidableEq T] (l : List T) (t x : T) :
    (l ++ [t]).count x = l.count x + (if x = t then 1 else 0) := by
  rw [List.count_append]
  by_cases hxt : x = t
  · subst hxt
    simp [List.count_singleton]
  · simp [List.count_singleton', hxt]

theorem groupCount_addToGroup {T : Type} [DecidableEq T] (st : SctypesLists T)
    {g : String} (t x : T)
    (hg : g ∈ (["int", "uint", "float", "complex", "others"] : List String)) :
    groupCount (addToGroup st g t) x
      = groupCount st x + (if x = t then 1 else 0) := by
  simp only [List.mem_cons, List.not_mem_nil, or_false] at hg
  rcases hg with rfl | rfl | rfl | rfl | rfl <;>
    simp only [groupCount, addToGroup, if_true, if_false, reduceIte,
      List.count_append, count_snoc] <;>
    by_cases hxt : x = t <;> simp [hxt] <;> omega

theorem groupCount_fold {T : Type} [DecidableEq T] (env : NumpyEnv T) :
    ∀ (l : List (TypeInfoEntry T)) (st : SctypesLists T) (x : T),
      (∀ e ∈ l, env.issubclass e.type (env.attr "generic") = true) →
      groupCount (l.foldl (sctypesStep env) st) x
        = groupCount st x +
          (l.filter (fun e => !(e.kind == 'M' || e.kind == 'm') && (e.type == x))).length := by
  intro l
  induction l with
  | nil => intro st x _; simp
  | cons e l ih =>
    intro st x hgen
    rw [List.foldl_cons]
    cases htime : (e.kind == 'M' || e.kind == 'm') with
    | true =>
      rw [sctypesStep_time htime,
        ih st x (fun e' he' => hgen e' (List.mem_cons_of_mem e he'))]
      congr 1
      congr 1
      rw [List.filter_cons]
      simp [htime]
    | false =>
      obtain ⟨g, hg⟩ := classify_isSome_of_generic
        (hgen e (List.mem_cons_self e l))
      rw [sctypesStep_group htime hg]
      rw [ih (addToGroup st g e.type) x (fun e' he' => hgen e' (List.mem_cons_of_mem e he'))]
      rw [groupCount_addToGroup st e.type x (classify_mem hg)]
      rw [List.filter_cons]
      by_cases hxe : e.type = x
      · have hpa : (!(e.kind == 'M' || e.kind == 'm') && (e.type == x)) = true := by
          simp [htime, hxe]
        simp only [hpa, if_true, List.length_cons, if_pos hxe.symm]
        omega
      · have hpa : (!(e.kind == 'M' || e.kind == 'm') && (e.type == x)) = false := by
          simp [htime, hxe]
        have hxe' : ¬(x = e.type) := fun h => hxe h.symm
        simp only [hpa, Bool.false_eq_true, if_false, if_neg hxe']
        omega

theorem groupCount_sctypes_eq {T : Type} [DecidableEq T] (env : NumpyEnv T) (x : T) :
    groupCount (sctypes env) x = groupCount (classifiedSctypes env) x := by
  simp only [sctypes, groupCount, List.count_append]
  rw [(List.mergeSort_perm (classifiedSctypes env).int _).count_eq,
    (List.mergeSort_perm (classifiedSctypes env).uint _).count_eq,
    (List.mergeSort_perm (classifiedSctypes env).float _).count_eq,
    (List.mergeSort_perm (classifiedSctypes env).complex _).count_eq,
    (List.mergeSort_perm (classifiedSctypes env).others _).count_eq]

theorem mem_others_addToGroup {T : Type} {st : SctypesLists T} {g : String} {t x : T}
    (h : x ∈ st.others) : x ∈ (addToGroup st g t).others := by
  unfold addToGroup
  split_ifs <;> simp [List.mem_append, h]

theorem mem_others_fold {T : Type} (env : NumpyEnv T) :
    ∀ (l : List (TypeInfoEntry T)) (st : SctypesLists T) {e : TypeInfoEntry T},
      e ∈ l → (e.kind == 'M' || e.kind == 'm') = false →
      classify env e.type = some "others" →
      e.type ∈ (l.foldl (sctypesStep env) st).others := by
  intro l
  induction l with
  | nil => intro st e h; cases h
  | cons e0 l ih =>
    intro st e hmem htime hc
    rw [List.foldl_cons]
    rcases List.mem_cons.mp hmem with rfl | htail
    · rw [sctypesStep_group htime hc]
      refine foldl_invariant (sctypesStep env) (fun s => e.type ∈ s.others)
        l (addToGroup st "others" e.type) ?_ ?_
      · show e.type ∈ (addToGroup st "others" e.type).others
        simp [addToGroup]
      · intro s e' _ hs
        cases htime' : (e'.kind == 'M' || e'.kind == 'm') with
        | true => rw [sctypesStep_time htime']; exact hs
        | false =>
          cases hc' : classify env e'.type with
          | none => rw [sctypesStep_none htime' hc']; exact hs
          | some g' =>
            rw [sctypesStep_group htime' hc']
            exact mem_others_addToGroup hs
    · exact ih (sctypesStep env st e0) htail htime hc

/-- C2: per deduplicated registry entry, the classifier puts the entry's
concrete type in exactly one group list exactly once when its kind is not
a time kind, puts it in no list when its kind is a time kind, and sends a
type matching none of the four numeric categories to `"others"` rather
than dropping it.  Hypotheses: distinct registry records carry distinct
concrete types, and every registry type is a subclass of `generic` (the
module's own docstring: scalar types are "those subclassing from
`numpy.generic`"). -/
theorem sctypes_partition {T : Type} [DecidableEq T] (env : NumpyEnv T)
    (hInj : ∀ e1 ∈ env.typeinfo.map (fun kv => kv.2),
      ∀ e2 ∈ env.typeinfo.map (fun kv => kv.2), e1.type = e2.type → e1 = e2)
    (hGen : ∀ e ∈ env.typeinfo.map (fun kv => kv.2),
      env.issubclass e.type (env.attr "generic") = true) :
    ∀ e ∈ (env.typeinfo.map (fun kv => kv.2)).dedup,
      ((e.kind = 'M' ∨ e.kind = 'm') → groupCount (sctypes env) e.type = 0) ∧
      (e.kind ≠ 'M' → e.kind ≠ 'm' → groupCount (sctypes env) e.type = 1) ∧
      (e.kind ≠ 'M' → e.kind ≠ 'm' →
        env.issubclass e.type (env.attr "signedinteger") = false →
        env.issubclass e.type (env.attr "unsignedinteger") = false →
        env.issubclass e.type (env.attr "floating") = false →
        env.issubclass e.type (env.attr "complexfloating") = false →
        List.count e.type (sctypes env).others = 1) := by
  intro e he
  have hGen' : ∀ e' ∈ (env.typeinfo.map (fun kv => kv.2)).dedup,
      env.issubclass e'.type (env.attr "generic") = true :=
    fun e' he' => hGen e' (List.mem_dedup.mp he')
  have hfold := groupCount_fold env ((env.typeinfo.map (fun kv => kv.2)).dedup)
    { int := [], uint := [], float := [], complex := [], others := [] } e.type hGen'
  have hbase : groupCount ({ int := [], uint := [], float := [], complex := [], others := [] } : SctypesLists T) e.type = 0 := by
    simp [groupCount]
  rw [hbase, Nat.zero_add] at hfold
  have hone : ∀ (hM : e.kind ≠ 'M') (hm : e.kind ≠ 'm'),
      groupCount (sctypes env) e.type = 1 := by
    intro hM hm
    rw [groupCount_sctypes_eq]
    show groupCount (classifiedSctypes env) e.type = 1
    rw [show classifiedSctypes env
        = ((env.typeinfo.map (fun kv => kv.2)).dedup).foldl (sctypesStep env)
          { int := [], uint := [], float := [], complex := [], others := [] } from rfl]
    rw [hfold]
    have hcong : ∀ e' ∈ (env.typeinfo.map (fun kv => kv.2)).dedup,
        (!(e'.kind == 'M' || e'.kind == 'm') && (e'.type == e.type)) = (e' == e) := by
      intro e' he'
      by_cases hty : e'.type = e.type
      · have : e' = e := hInj e' (List.mem_dedup.mp he') e (List.mem_dedup.mp he) hty
        subst this
        have h1 : (e'.kind == 'M') = false := by
          simpa using hM
        have h2 : (e'.kind == 'm') = false := by
          simpa using hm
        simp [h1, h2]
      · have h1 : (e'.type == e.type) = false := by
          simpa using hty
        have h2 : (e' == e) = false := by
          have : e' ≠ e := fun hcontra => hty (by rw [hcontra])
          simpa using this
        simp [h1, h2]
    rw [List.filter_congr hcong]
    rw [← List.countP_eq_length_filter]
    have : List.countP (fun e' => e' == e) ((env.typeinfo.map (fun kv => kv.2)).dedup)
        = List.count e ((env.typeinfo.map (fun kv => kv.2)).dedup) := rfl
    rw [this]
    exact List.count_eq_one_of_mem (List.nodup_dedup _) he
  refine ⟨?_, hone, ?_⟩
  · intro hMm
    rw [groupCount_sctypes_eq]
    show groupCount (classifiedSctypes env) e.type = 0
    rw [show classifiedSctypes env
        = ((env.typeinfo.map (fun kv => kv.2)).dedup).foldl (sctypesStep env)
          { int := [], uint := [], float := [], complex := [], others := [] } from rfl]
    rw [hfold]
    rw [List.length_eq_zero]
    rw [List.filter_eq_nil_iff]
    intro e' he'
    by_cases hty : e'.type = e.type
    · have : e' = e := hInj e' (List.mem_dedup.mp he') e (List.mem_dedup.mp he) hty
      subst this
      rcases hMm with hM | hm
      · simp [hM]
      · simp [hm]
    · have : (e'.type == e.type) = false := by
        simpa using hty
      simp [this]
  · intro hM hm h1 h2 h3 h4
    have hc : classify env e.type = some "others" :=
      classify_others_of h1 h2 h3 h4 (hGen' e he)
    have htime : (e.kind == 'M' || e.kind == 'm') = false := by
      have hM' : (e.kind == 'M') = false := by
        simpa using hM
      have hm' : (e.kind == 'm') = false := by
        simpa using hm
      rw [hM', hm']
      rfl
    have hmem : e.type ∈ (classifiedSctypes env).others :=
      mem_others_fold env _ _ he htime hc
    have hpos : 0 < List.count e.type (classifiedSctypes env).others :=
      List.count_pos_iff.mpr hmem
    have htot : groupCount (classifiedSctypes env) e.type = 1 := by
      rw [← groupCount_sctypes_eq]
      exact hone hM hm
    have hle : List.count e.type (classifiedSctypes env).others
        ≤ groupCount (classifiedSctypes env) e.type := by
      simp only [groupCount, List.count_append]
      omega
    have : List.count e.type (classifiedSctypes env).others = 1 := by
      omega
    rw [show (sctypes env).others
        = (classifiedSctypes env).others.mergeSort (itemsizeLE env) from rfl]
    rw [(List.mergeSort_perm (classifiedSctypes env).others _).count_eq]
    exact this

/-- Witness for C2 at the concrete environment, at the `"float64"` entry
(kind `'d'`, handle `18`) — the hypotheses of `sctypes_partition` hold on
`envW` and the entry is not a time kind. -/
theorem sctypes_partition_witness :
    (⟨'d', 18⟩ : TypeInfoEntry Nat)
        ∈ ((envW.typeinfo.map (fun kv => kv.2)).dedup) ∧
    groupCount (sctypes envW) 18 = 1 := by
  refine ⟨by decide, ?_⟩
  have h := sctypes_partition envW (by decide) (by decide) ⟨'d', 18⟩ (by decide)
  exact h.2.1 (by decide) (by decide)

/-! ### Sortedness and stability of the group lists (C6) -/


theorem itemsizeLE_trans {T : Type} (env : NumpyEnv T) :
    ∀ (a b c : T), itemsizeLE env a b → itemsizeLE env b c → itemsizeLE env a c := by
  intro a b c hab hbc
  simp only [itemsizeLE, decide_eq_true_eq] at hab hbc ⊢
  omega

theorem itemsizeLE_total {T : Type} (env : NumpyEnv T) :
    ∀ (a b : T), itemsizeLE env a b || itemsizeLE env b a := by
  intro a b
  simp only [itemsizeLE, Bool.or_eq_true, decide_eq_true_eq]
  omega

theorem sorted_stable_mergeSort {T : Type} (env : NumpyEnv T) (l : List T) :
    SortedStable env l (l.mergeSort (itemsizeLE env)) := by
  constructor
  · have hs := List.sorted_mergeSort (itemsizeLE_trans env) (itemsizeLE_total env) l
    exact hs.imp (fun {a b} h => by simpa [itemsizeLE] using h)
  · intro w
    have hall : ∀ x ∈ l.filter (fun x => env.itemsize x == w), env.itemsize x = w := by
      intro x hx
      have := (List.mem_filter.mp hx).2
      simpa using this
    have hc : (l.filter (fun x => env.itemsize x == w)).Pairwise
        (fun a b => itemsizeLE env a b = true) := by
      refine List.pairwise_of_forall_mem_list ?_
      intro a ha b hb
      simp [itemsizeLE, hall a ha, hall b hb]
    have hsub : List.Sublist (l.filter (fun x => env.itemsize x == w))
        (l.mergeSort (itemsizeLE env)) :=
      List.sublist_mergeSort (itemsizeLE_trans env) (itemsizeLE_total env) hc
        (List.filter_sublist l)
    have hperm : List.Perm
        ((l.mergeSort (itemsizeLE env)).filter (fun x => env.itemsize x == w))
        (l.filter (fun x => env.itemsize x == w)) :=
      (List.mergeSort_perm l (itemsizeLE env)).filter _
    have hsub2 : List.Sublist (l.filter (fun x => env.itemsize x == w))
        ((l.mergeSort (itemsizeLE env)).filter (fun x => env.itemsize x == w)) := by
      have hff : (l.filter (fun x => env.itemsize x == w)).filter
          (fun x => env.itemsize x == w) = l.filter (fun x => env.itemsize x == w) :=
        List.filter_eq_self.mpr (fun a ha => (List.mem_filter.mp ha).2)
      have := hsub.filter (fun x => env.itemsize x == w)
      rwa [hff] at this
    exact (hsub2.eq_of_length hperm.length_eq.symm).symm

/-- C6: within each of the five group lists of `sctypes`, byte widths are
non-decreasing from first to last, and members of equal byte width keep
the order in which the classification pass appended them (the sort is
stable). -/
theorem sctypes_groups_sorted_stable {T : Type} [DecidableEq T] (env : NumpyEnv T) :
    SortedStable env (classifiedSctypes env).int (sctypes env).int ∧
    SortedStable env (classifiedSctypes env).uint (sctypes env).uint ∧
    SortedStable env (classifiedSctypes env).float (sctypes env).float ∧
    SortedStable env (classifiedSctypes env).complex (sctypes env).complex ∧
    SortedStable env (classifiedSctypes env).others (sctypes env).others :=
  ⟨sorted_stable_mergeSort env _, sorted_stable_mergeSort env _,
   sorted_stable_mergeSort env _, sorted_stable_mergeSort env _,
   sorted_stable_mergeSort env _⟩

/-- Witness for C6 at the concrete environment: the float group of
`sctypes envW` is the sorted, stable rearrangement of its classified
list. -/
theorem sctypes_groups_sorted_stable_witness :
    SortedStable envW (classifiedSctypes envW).float (sctypes envW).float :=
  (sctypes_groups_sorted_stable envW).2.2.1

/-! ### The extended-precision phase (C5, C3) -/

theorem foldlM_nil_eq {σ α : Type _} {f : σ → α → Option σ} {s s' : σ}
    (h : ([] : List α).foldlM f s = some s') : s = s' := by
  simp [List.foldlM] at h
  exact h

/-- C5: an extended-precision name `"float"+bits` (resp. `"complex"+bits`),
with `bits` computed from the platform byte width of `longdouble` (resp.
`clongdouble`), is added to both mappings, pointing at the extended type,
exactly when no same-named key already exists in `allTypes`; when one
exists, the phase leaves both mappings unchanged at that name.  In
particular, when `longdouble` has the standard 8-byte width and
`"float64"` is present, nothing is added or re-pointed. -/
theorem extended_names_added_iff {T : Type} (env : NumpyEnv T) (st tbl : Tables T)
    (h : extendedPhase env st = some tbl) (L CL : T)
    (hL : dget st.allTypes "longdouble" = some L)
    (hCL : dget st.allTypes "clongdouble" = some CL) :
    (dmem st.allTypes (extended_prec_name false (env.itemsize L * 8)) = false →
      dget tbl.sctypeDict (extended_prec_name false (env.itemsize L * 8)) = some L ∧
      dget tbl.allTypes (extended_prec_name false (env.itemsize L * 8)) = some L) ∧
    (dmem st.allTypes (extended_prec_name false (env.itemsize L * 8)) = true →
      dget tbl.sctypeDict (extended_prec_name false (env.itemsize L * 8))
        = dget st.sctypeDict (extended_prec_name false (env.itemsize L * 8)) ∧
      dget tbl.allTypes (extended_prec_name false (env.itemsize L * 8))
        = dget st.allTypes (extended_prec_name false (env.itemsize L * 8))) ∧
    (dmem st.allTypes (extended_prec_name true (env.itemsize CL * 8)) = false →
      dget tbl.sctypeDict (extended_prec_name true (env.itemsize CL * 8)) = some CL ∧
      dget tbl.allTypes (extended_prec_name true (env.itemsize CL * 8)) = some CL) ∧
    (dmem st.allTypes (extended_prec_name true (env.itemsize CL * 8)) = true →
      dget tbl.sctypeDict (extended_prec_name true (env.itemsize CL * 8))
        = dget st.sctypeDict (extended_prec_name true (env.itemsize CL * 8)) ∧
      dget tbl.allTypes (extended_prec_name true (env.itemsize CL * 8))
        = dget st.allTypes (extended_prec_name true (env.itemsize CL * 8))) ∧
    (env.itemsize L = 8 → dmem st.allTypes "float64" = true →
      dget tbl.sctypeDict "float64" = dget st.sctypeDict "float64") := by
  obtain ⟨s1, hstep1, hrest⟩ := foldlM_isSome_tail h
  obtain ⟨s2, hstep2, hlast⟩ := foldlM_isSome_tail hrest
  rw [foldlM_nil_eq hlast] at hstep2
  obtain ⟨L', hL', hcase1⟩ := extendedStep_some hstep1
  have hLL : L' = L := by
    have hx : some L' = some L := by rw [← hL', ← hL]
    exact Option.some_inj.mp hx
  rw [hLL] at hcase1
  -- the first step never touches the key "clongdouble"
  have hC1 : dget s1.allTypes "clongdouble" = some CL := by
    rcases hcase1 with ⟨_, rfl⟩ | ⟨_, rfl⟩
    · exact hCL
    · rw [show ({ st with
          sctypeDict := dset st.sctypeDict
            (extended_prec_name false (env.itemsize L * 8)) L,
          allTypes := dset st.allTypes
            (extended_prec_name false (env.itemsize L * 8)) L } : Tables T).allTypes
          = dset st.allTypes (extended_prec_name false (env.itemsize L * 8)) L from rfl]
      rw [dget_dset_ne _ _ (fun hcon =>
        (extName_ne_longdouble false (env.itemsize L * 8)).2 hcon.symm)]
      exact hCL
  obtain ⟨CL', hCL', hcase2⟩ := extendedStep_some hstep2
  have hCC : CL' = CL := by
    have hx : some CL' = some CL := by rw [← hCL', ← hC1]
    exact Option.some_inj.mp hx
  rw [hCC] at hcase2
  -- names
  have hfc : ∀ n m : Nat, extended_prec_name false n ≠ extended_prec_name true m :=
    fun n m => extName_float_ne_complex n m
  -- the complex-name's membership test in `s1` agrees with `st`
  have hmemc : dmem s1.allTypes (extended_prec_name true (env.itemsize CL * 8))
      = dmem st.allTypes (extended_prec_name true (env.itemsize CL * 8)) := by
    rcases hcase1 with ⟨_, rfl⟩ | ⟨_, rfl⟩
    · rfl
    · rw [show ({ st with
          sctypeDict := dset st.sctypeDict
            (extended_prec_name false (env.itemsize L * 8)) L,
          allTypes := dset st.allTypes
            (extended_prec_name false (env.itemsize L * 8)) L } : Tables T).allTypes
          = dset st.allTypes (extended_prec_name false (env.itemsize L * 8)) L from rfl]
      rw [dmem_dset]
      have : (extended_prec_name false (env.itemsize L * 8)
          == extended_prec_name true (env.itemsize CL * 8)) = false := by
        simpa using hfc (env.itemsize L * 8) (env.itemsize CL * 8)
      rw [this]
      rfl
  -- lookups of the float name are unchanged by the second step
  have hfn2 : dget tbl.sctypeDict (extended_prec_name false (env.itemsize L * 8))
      = dget s1.sctypeDict (extended_prec_name false (env.itemsize L * 8)) ∧
      dget tbl.allTypes (extended_prec_name false (env.itemsize L * 8))
      = dget s1.allTypes (extended_prec_name false (env.itemsize L * 8)) := by
    rcases hcase2 with ⟨_, rfl⟩ | ⟨_, rfl⟩
    · exact ⟨rfl, rfl⟩
    · constructor <;>
        exact dget_dset_ne _ _ (hfc (env.itemsize L * 8) (env.itemsize CL * 8))
  refine ⟨?_, ?_, ?_, ?_, ?_⟩
  · intro hno
    rcases hcase1 with ⟨hyes, rfl⟩ | ⟨_, rfl⟩
    · rw [hyes] at hno; cases hno
    · rw [hfn2.1, hfn2.2]
      exact ⟨dget_dset_self _ _ _, dget_dset_self _ _ _⟩
  · intro hyes
    rcases hcase1 with ⟨_, rfl⟩ | ⟨hno, rfl⟩
    · exact ⟨hfn2.1, hfn2.2⟩
    · rw [hno] at hyes; cases hyes
  · intro hno
    rcases hcase2 with ⟨hyes2, rfl⟩ | ⟨_, rfl⟩
    · rw [hmemc, hno] at hyes2; cases hyes2
    · exact ⟨dget_dset_self _ _ _, dget_dset_self _ _ _⟩
  · intro hyes
    have hs1c : dget s1.sctypeDict (extended_prec_name true (env.itemsize CL * 8))
        = dget st.sctypeDict (extended_prec_name true (env.itemsize CL * 8)) ∧
        dget s1.allTypes (extended_prec_name true (env.itemsize CL * 8))
        = dget st.allTypes (extended_prec_name true (env.itemsize CL * 8)) := by
      rcases hcase1 with ⟨_, rfl⟩ | ⟨_, rfl⟩
      · exact ⟨rfl, rfl⟩
      · constructor <;>
          exact dget_dset_ne _ _ (fun hcon =>
            hfc (env.itemsize L * 8) (env.itemsize CL * 8) hcon.symm)
    rcases hcase2 with ⟨_, rfl⟩ | ⟨hno2, rfl⟩
    · exact hs1c
    · rw [hmemc, hyes] at hno2; cases hno2
  · intro hi8 hmem64
    have hname : extended_prec_name false (env.itemsize L * 8) = "float64" := by
      rw [hi8]
      rfl
    have hfn1 : dget s1.sctypeDict "float64" = dget st.sctypeDict "float64" := by
      rcases hcase1 with ⟨_, rfl⟩ | ⟨hno, rfl⟩
      · rfl
      · rw [hname] at hno
        rw [hno] at hmem64
        cases hmem64
    have hcn64 : extended_prec_name true (env.itemsize CL * 8) ≠ "float64" := by
      rw [← hname]
      intro hcon
      exact hfc (env.itemsize L * 8) (env.itemsize CL * 8) hcon.symm
    rcases hcase2 with ⟨_, rfl⟩ | ⟨_, rfl⟩
    · exact hfn1
    · rw [show dget (dset s1.sctypeDict
          (extended_prec_name true (env.itemsize CL * 8)) CL) "float64"
          = dget s1.sctypeDict "float64" from
          dget_dset_ne _ _ (fun hcon => hcn64 hcon.symm)]
      exact hfn1



/-- Witness for C5 at the concrete environment: on `stW5` the names
`"float128"` and `"complex256"` are absent beforehand and both get added
to both mappings. -/
theorem extended_names_added_iff_witness :
    dget tblW5.sctypeDict "float128" = some 21 ∧
    dget tblW5.allTypes "complex256" = some 22 := by
  have h := extended_names_added_iff envW stW5 tblW5 (by decide) 21 22
    (by decide) (by decide)
  exact ⟨(h.1 (by decide)).1, (h.2.2.1 (by decide)).2⟩



/-- Counterexample to C3 as stated: the final extended-precision phase
does NOT overwrite a same-named earlier entry.  On `envC3` the computed
extended name is `"float128"`, which collides with the registry entry of
handle `30`; were the phase strictly overwriting, the broad mapping would
map `"float128"` to the `longdouble` handle `21` afterwards — it still
maps it to `30`. -/
theorem extended_no_overwrite_counterexample :
    buildTables envC3 = some tblC3 ∧
    ("float128", (⟨'f', 30⟩ : TypeInfoEntry Nat)) ∈ envC3.typeinfo ∧
    dget tblC3.allTypes "longdouble" = some 21 ∧
    extended_prec_name false (envC3.itemsize 21 * 8) = "float128" ∧
    dget tblC3.sctypeDict "float128" = some 30 ∧
    ¬ dget tblC3.sctypeDict "float128" = some 21 := by
  refine ⟨by decide, by decide, by decide, by decide, by decide, by decide⟩

/-- C3 (amended): the construction runs its phases in the fixed source
order (abstract categories, registry, `_aliases`, `_extra_aliases`,
extended precision); the registry, cross-precision and convenience steps
strictly overwrite a same-named earlier entry; the extended-precision
step, by contrast, never overwrites — on a collision in `allTypes` it
leaves the state unchanged, and it writes only names that are absent. -/
theorem phase_order_and_overwrite {T : Type} (env : NumpyEnv T) :
    (buildTables env
      = (aliasPhase (registryPhase env (abstractPhase env))).bind (fun st2 =>
          (extraAliasPhase st2).bind (fun st3 => extendedPhase env st3))) ∧
    (∀ (st : Tables T) (kv : String × TypeInfoEntry T),
      py_startswith kv.1 "NPY_" = false →
      dget (regStep st kv).sctypeDict kv.1 = some kv.2.type ∧
      dget (regStep st kv).allTypes kv.1 = some kv.2.type) ∧
    (∀ (st st' : Tables T) (kv : String × String) (t : T),
      aliasStep st kv = some st' → dget st.allTypes kv.2 = some t →
      dget st'.sctypeDict kv.1 = some t ∧ dget st'.allTypes kv.1 = some t) ∧
    (∀ (st st' : Tables T) (kv : String × String) (t : T),
      extraAliasStep st kv = some st' → dget st.allTypes kv.2 = some t →
      dget st'.sctypeDict kv.1 = some t ∧ st'.allTypes = st.allTypes) ∧
    (∀ (st st' : Tables T) (p : Bool × String) (L : T),
      extendedStep env st p = some st' → dget st.allTypes p.2 = some L →
      ((dmem st.allTypes (extended_prec_name p.1 (env.itemsize L * 8)) = true →
        st' = st) ∧
       (dmem st.allTypes (extended_prec_name p.1 (env.itemsize L * 8)) = false →
        dget st'.sctypeDict (extended_prec_name p.1 (env.itemsize L * 8)) = some L ∧
        dget st'.allTypes (extended_prec_name p.1 (env.itemsize L * 8)) = some L))) := by
  refine ⟨rfl, ?_, ?_, ?_, ?_⟩
  · intro st kv hnpy
    rw [regStep_concrete hnpy]
    exact ⟨dget_dset_self _ _ _, dget_dset_self _ _ _⟩
  · intro st st' kv t hstep hres
    obtain ⟨w, hw, rfl⟩ := aliasStep_some hstep
    have hwt : w = t := by
      have hx : some w = some t := by rw [← hw, ← hres]
      exact Option.some_inj.mp hx
    rw [hwt]
    exact ⟨dget_dset_self _ _ _, dget_dset_self _ _ _⟩
  · intro st st' kv t hstep hres
    obtain ⟨w, hw, rfl⟩ := extraAliasStep_some hstep
    have hwt : w = t := by
      have hx : some w = some t := by rw [← hw, ← hres]
      exact Option.some_inj.mp hx
    rw [hwt]
    exact ⟨dget_dset_self _ _ _, rfl⟩
  · intro st st' p L hstep hres
    obtain ⟨L', hL', hcase⟩ := extendedStep_some hstep
    have hLL : L' = L := by
      have hx : some L' = some L := by rw [← hL', ← hres]
      exact Option.some_inj.mp hx
    rw [hLL] at hcase
    constructor
    · intro hyes
      rcases hcase with ⟨_, rfl⟩ | ⟨hno, rfl⟩
      · rfl
      · rw [hyes] at hno; cases hno
    · intro hno
      rcases hcase with ⟨hyes, rfl⟩ | ⟨_, rfl⟩
      · rw [hyes] at hno; cases hno
      · exact ⟨dget_dset_self _ _ _, dget_dset_self _ _ _⟩


/-- Witness for the amended C3: its overwrite facts instantiated at
concrete inputs — a registry step on `"float64"` overwrites whatever was
there before, and the extended-precision step on `stW5` adds
`"float128"`. -/
theorem phase_order_and_overwrite_witness :
    dget (regStep { sctypeDict := [("float64", 0)], allTypes := [], c_names_dict := [] }
        ("float64", ⟨'d', 18⟩)).sctypeDict "float64" = some 18 ∧
    dget s1W.sctypeDict "float128" = some 21 := by
  constructor
  · exact ((phase_order_and_overwrite envW).2.1
      { sctypeDict := [("float64", 0)], allTypes := [], c_names_dict := [] }
      ("float64", ⟨'d', 18⟩) (by decide)).1
  · exact (((phase_order_and_overwrite envW).2.2.2.2 stW5 s1W
      (false, "longdouble") 21 (by decide) (by decide)).2 (by decide)).1

end TypeAliases
